import Mathlib

/-! Verification development for the legislative-document query server.

The JavaScript sources are shallowly embedded in Lean: strings are modelled as
`List Char`, JavaScript objects with string keys as insertion-ordered
association lists (faithful for the non-numeric keys occurring here), thrown
exceptions as `Except`, and `undefined`-able values as `Option`.  Each claim of
the specification is settled by a theorem about these embeddings. -/

namespace TextUtils

/-- Characters matched by the JavaScript regex class `\s` (ASCII range). -/
def isWs (c : Char) : Bool :=
  c = ' ' || c = '\t' || c = '\n' || c = '\r' || c = '\x0b' || c = '\x0c'

/-- Single pass implementing `text.replace(/\s+/g, ' ')`: the flag records
whether the previous character was whitespace, so each maximal whitespace run
emits exactly one space. -/
def collapseWsAux (prevWs : Bool) : List Char → List Char
  | [] => []
  | c :: rest =>
    if isWs c then
      if prevWs then collapseWsAux true rest
      else ' ' :: collapseWsAux true rest
    else c :: collapseWsAux false rest

/-- Embedding of `text.replace(/\s+/g, ' ')`. -/
def collapseWs (l : List Char) : List Char := collapseWsAux false l

/-- Embedding of `String.prototype.trim` (ASCII whitespace). -/
def jsTrim (l : List Char) : List Char :=
  ((l.dropWhile isWs).reverse.dropWhile isWs).reverse

/-- `normalizeText` from `textUtils.js`: collapse whitespace runs to a single
space, trim, lower-case.  The JS guard returning `''` for falsy input is the
`t = []` branch. -/
def normalizeText (t : List Char) : List Char :=
  if t = [] then [] else (jsTrim (collapseWs t)).map Char.toLower

/-- Characters of the JavaScript regex class `\w` (so `\W` is its negation). -/
def isWordChar (c : Char) : Bool :=
  ('a' ≤ c && c ≤ 'z') || ('A' ≤ c && c ≤ 'Z') || ('0' ≤ c && c ≤ '9') || c = '_'

/-- Helper for `String.prototype.split(/\W+/)`.  `mode = some acc` means a
token `acc` (reversed) is being accumulated; `mode = none` means a maximal
non-word-character run is being skipped. -/
def splitNonWordAux (mode : Option (List Char)) : List Char → List (List Char)
  | [] =>
    match mode with
    | some acc => [acc.reverse]
    | none => [[]]
  | c :: rest =>
    match mode with
    | some acc =>
      if isWordChar c then splitNonWordAux (some (c :: acc)) rest
      else acc.reverse :: splitNonWordAux none rest
    | none =>
      if isWordChar c then splitNonWordAux (some [c]) rest
      else splitNonWordAux none rest

/-- Embedding of `text.split(/\W+/)` (boundary empty pieces included, as in JS). -/
def splitNonWord (l : List Char) : List (List Char) :=
  splitNonWordAux (some []) l

/-- The stop-word set of `extractKeywords` (the source array lists some words
twice; `new Set` deduplicates, so membership is all that matters). -/
def stopWords : List (List Char) :=
  ["the", "and", "or", "but", "in", "on", "at", "to", "for", "of", "with",
   "by", "from", "up", "about", "into", "through", "during", "before",
   "after", "above", "below", "between", "among", "a", "an",
   "as", "are", "was", "were", "been", "be", "have", "has", "had",
   "do", "does", "did", "will", "would", "could", "should", "may",
   "might", "must", "can", "shall", "this", "that", "these", "those"].map
    String.toList

def isDigitCh (c : Char) : Bool := '0' ≤ c && c ≤ '9'

/-- The test `word.match(/^\d+$/)`: non-empty and all decimal digits. -/
def isPureNumeric (w : List Char) : Bool := !w.isEmpty && w.all isDigitCh

/-- `extractKeywords` from `textUtils.js`: normalize, split on non-word runs,
keep tokens of length > 2 outside the stop-word set, drop purely numeric
tokens.  The JS guard returning `[]` for falsy input is the `t = []` branch. -/
def extractKeywords (t : List Char) : List (List Char) :=
  if t = [] then []
  else
    ((splitNonWord (normalizeText t)).filter
        (fun w => decide (2 < w.length) && !stopWords.contains w)).filter
      (fun w => !isPureNumeric w)

/-- `calculateSimilarity` from `textUtils.js`: Jaccard index of the two
keyword sets, with the source's falsy-input and empty-set guards.  The JS
float division is modelled exactly in `ℚ`. -/
def calculateSimilarity (t1 t2 : List Char) : ℚ :=
  if t1 = [] ∨ t2 = [] then 0
  else if (extractKeywords t1).toFinset.card = 0 ∨ (extractKeywords t2).toFinset.card = 0 then 0
  else
    (((extractKeywords t1).toFinset ∩ (extractKeywords t2).toFinset).card : ℚ) /
      (((extractKeywords t1).toFinset ∪ (extractKeywords t2).toFinset).card : ℚ)

/-- The token-set Jaccard index exactly as the specification words it
(`|A ∩ B| / |A ∪ B|`); used to compare `calculateSimilarity` against the
spec's description. -/
def jaccardIndex (s u : Finset (List Char)) : ℚ :=
  ((s ∩ u).card : ℚ) / ((s ∪ u).card : ℚ)

theorem extractKeywords_nil : extractKeywords [] = [] := rfl

/-- Claim C8: every token produced by `extractKeywords` has length strictly
greater than 2, is not a member of the stop-word set, and is not purely
numeric. -/
theorem extractKeywords_tokens_filtered (t w : List Char)
    (hw : w ∈ extractKeywords t) :
    2 < w.length ∧ stopWords.contains w = false ∧ isPureNumeric w = false := by
  unfold extractKeywords at hw
  by_cases ht : t = []
  · simp [ht] at hw
  · simp only [ht, if_false, List.mem_filter] at hw
    obtain ⟨⟨_, hlenStop⟩, hnum⟩ := hw
    have hlenStop' := Bool.and_eq_true_iff.mp hlenStop
    refine ⟨of_decide_eq_true hlenStop'.1, ?_, ?_⟩
    · simpa using hlenStop'.2
    · simpa using hnum

/-- Witness for claim C8 at a concrete input. -/
theorem extractKeywords_tokens_filtered_witness :
    ("tax".toList ∈ extractKeywords "the tax 123 okay".toList) ∧
      (2 < "tax".toList.length ∧ stopWords.contains "tax".toList = false ∧
        isPureNumeric "tax".toList = false) :=
  ⟨by decide, extractKeywords_tokens_filtered "the tax 123 okay".toList "tax".toList (by decide)⟩

/-- Claim C9: `calculateSimilarity` is the token-set Jaccard index of the two
inputs' tokenizations — it is reflexive with value 1 on inputs with a
non-empty tokenization, symmetric, zero whenever either tokenization is
empty, and equal to the spec's `jaccardIndex` whenever both tokenizations are
non-empty. -/
theorem calculateSimilarity_jaccard (a b t : List Char) :
    (extractKeywords t ≠ [] → calculateSimilarity t t = 1) ∧
      calculateSimilarity a b = calculateSimilarity b a ∧
      (extractKeywords a = [] ∨ extractKeywords b = [] →
        calculateSimilarity a b = 0) ∧
      (extractKeywords a ≠ [] → extractKeywords b ≠ [] →
        calculateSimilarity a b =
          jaccardIndex (extractKeywords a).toFinset (extractKeywords b).toFinset) := by
  refine ⟨?_, ?_, ?_, ?_⟩
  · intro hkw
    have ht : t ≠ [] := fun h => hkw (h ▸ extractKeywords_nil)
    have hcard : (extractKeywords t).toFinset.card ≠ 0 := by
      simp only [ne_eq, Finset.card_eq_zero, List.toFinset_eq_empty_iff]
      exact hkw
    unfold calculateSimilarity
    rw [if_neg (by simp [ht]), if_neg (by simp [hcard]), Finset.inter_self,
      Finset.union_self]
    exact div_self (by exact_mod_cast hcard)
  · unfold calculateSimilarity
    by_cases ha : a = []
    · simp [ha]
    by_cases hb : b = []
    · simp [hb]
    have g1 : ¬(a = [] ∨ b = []) := by simp [ha, hb]
    have g2 : ¬(b = [] ∨ a = []) := by simp [ha, hb]
    rw [if_neg g1, if_neg g2]
    by_cases hc : (extractKeywords a).toFinset.card = 0 ∨ (extractKeywords b).toFinset.card = 0
    · have hc' : (extractKeywords b).toFinset.card = 0 ∨
          (extractKeywords a).toFinset.card = 0 := hc.symm
      rw [if_pos hc, if_pos hc']
    · have hc' : ¬((extractKeywords b).toFinset.card = 0 ∨
          (extractKeywords a).toFinset.card = 0) := fun h => hc h.symm
      rw [if_neg hc, if_neg hc', Finset.inter_comm, Finset.union_comm]
  · intro hab
    unfold calculateSimilarity
    by_cases ha : a = []
    · simp [ha]
    by_cases hb : b = []
    · simp [hb]
    have hc : (extractKeywords a).toFinset.card = 0 ∨ (extractKeywords b).toFinset.card = 0 := by
      rcases hab with h | h
      · left
        simp [Finset.card_eq_zero, List.toFinset_eq_empty_iff, h]
      · right
        simp [Finset.card_eq_zero, List.toFinset_eq_empty_iff, h]
    have g1 : ¬(a = [] ∨ b = []) := by simp [ha, hb]
    rw [if_neg g1, if_pos hc]
  · intro hka hkb
    have ha : a ≠ [] := fun h => hka (h ▸ extractKeywords_nil)
    have hb : b ≠ [] := fun h => hkb (h ▸ extractKeywords_nil)
    have hca : (extractKeywords a).toFinset.card ≠ 0 := by
      simp only [ne_eq, Finset.card_eq_zero, List.toFinset_eq_empty_iff]
      exact hka
    have hcb : (extractKeywords b).toFinset.card ≠ 0 := by
      simp only [ne_eq, Finset.card_eq_zero, List.toFinset_eq_empty_iff]
      exact hkb
    unfold calculateSimilarity jaccardIndex
    rw [if_neg (by simp [ha, hb]), if_neg (by simp [hca, hcb])]

/-- Witness for claim C9 at concrete inputs. -/
theorem calculateSimilarity_jaccard_witness :
    calculateSimilarity "tax credit".toList "tax credit".toList = 1 ∧
      calculateSimilarity "tax".toList "the".toList = 0 :=
  ⟨(calculateSimilarity_jaccard "tax".toList "the".toList "tax credit".toList).1 (by decide),
    (calculateSimilarity_jaccard "tax".toList "the".toList "anything".toList).2.2.1
      (Or.inr (by decide))⟩

end TextUtils

namespace DocumentParser

open TextUtils

/-- The `Section` record built by `extractSectionDataSimple` (metadata
sub-object omitted; it repeats the attribute fields). -/
structure Sec where
  id : List Char
  type : List Char
  title : List Char
  content : List Char
  fullText : List Char
  level : Nat
  parentId : Option (List Char)
  children : List (List Char)
deriving DecidableEq, Repr

/-- Section store, the JS object `sections` (insertion-ordered map). -/
abbrev SecMap := List (List Char × Sec)

/-- Inverted index, the JS object `searchIndex` (keyword → section ids;
keywords are never purely numeric, so JS objects keep insertion order). -/
abbrev SearchIndex := List (List Char × List (List Char))

/-- One step of `buildSearchIndex`'s inner loop: ensure `searchIndex[keyword]`
exists and push `sectionId` if it is not already listed. -/
def addToIndex : SearchIndex → List Char → List Char → SearchIndex
  | [], kw, sid => [(kw, [sid])]
  | (k, ids) :: rest, kw, sid =>
    if k = kw then (k, if sid ∈ ids then ids else ids ++ [sid]) :: rest
    else (k, ids) :: addToIndex rest kw sid

/-- `buildSearchIndex` from `documentParser.js`: for every section, index the
keywords of its title and of its full text, deduplicating ids per keyword. -/
def buildSearchIndex (sections : SecMap) : SearchIndex :=
  sections.foldl
    (fun idx p =>
      (extractKeywords p.2.title ++ extractKeywords p.2.fullText).foldl
        (fun idx2 kw => addToIndex idx2 kw p.1) idx)
    []

/-- `searchIndex[keyword] || []`. -/
def indexIds (idx : SearchIndex) (kw : List Char) : List (List Char) :=
  (idx.lookup kw).getD []

/-- One step of the score accumulation
`sectionScores[sectionId] = (sectionScores[sectionId] || 0) + 1`
(insertion-ordered, first occurrence fixes the position). -/
def bump : List (List Char × Nat) → List Char → List (List Char × Nat)
  | [], sid => [(sid, 1)]
  | (k, v) :: rest, sid =>
    if k = sid then (k, v + 1) :: rest else (k, v) :: bump rest sid

/-- The `sectionScores` object after the two nested `forEach` loops of
`searchSections`. -/
def sectionScores (idx : SearchIndex) (keywords : List (List Char)) :
    List (List Char × Nat) :=
  keywords.foldl (fun sc kw => (indexIds idx kw).foldl bump sc) []

/-- Stable insertion (descending by score) implementing the stable JS
`sort((a, b) => b[1] - a[1])`: the inserted element is placed after the
entries with strictly greater score, so on ties earlier-encountered entries
stay ahead. -/
def insertDesc (x : List Char × Nat) : List (List Char × Nat) → List (List Char × Nat)
  | [] => [x]
  | y :: rest => if y.2 > x.2 then y :: insertDesc x rest else x :: y :: rest

/-- Stable descending-by-score sort (the ECMAScript `Array.prototype.sort` is
stable). -/
def sortDesc : List (List Char × Nat) → List (List Char × Nat)
  | [] => []
  | x :: rest => insertDesc x (sortDesc rest)

/-- `Array.prototype.slice(0, e)` for a possibly negative `e`. -/
def jsSliceTo (l : List (List Char × Nat)) (e : Int) : List (List Char × Nat) :=
  if e < 0 then l.take (l.length - (-e).toNat) else l.take e.toNat

/-- Entry of the list returned by `searchSections`
(`{section: this.documentData.sections[sectionId], score}`; the lookup is an
`Option` because a JS property access can yield `undefined`).  The JS field
`section` is a Lean keyword, hence the field name `sec`. -/
structure ScoredSection where
  sec : Option Sec
  score : Nat
deriving DecidableEq, Repr

/-- The document snapshot as used by retrieval (`sections` plus the inverted
index; metadata, hierarchy and toc are not consulted by any claim). -/
structure DocumentData where
  sections : SecMap
  searchIndex : SearchIndex
deriving Repr

/-- `searchSections(query, limit)` from `documentParser.js`: extract the query
keywords (duplicates kept, as in the source), accumulate one point per
matching index entry per keyword occurrence, sort descending by score
(stable), truncate with `slice(0, limit)`, and attach the section records. -/
def searchSections (data : DocumentData) (query : List Char) (limit : Int) :
    List ScoredSection :=
  (jsSliceTo (sortDesc (sectionScores data.searchIndex (extractKeywords query))) limit).map
    (fun p => ⟨data.sections.lookup p.1, p.2⟩)

/-- The score the specification describes: the number of DISTINCT query
tokens whose index entry contains the section (modelled from the spec's
words, for comparison with the implementation). -/
def specDistinctScore (data : DocumentData) (query : List Char) (sid : List Char) : Nat :=
  ((extractKeywords query).dedup.filter (fun kw => sid ∈ indexIds data.searchIndex kw)).length

/-- Score finally stored for `sid` (0 when absent, as `|| 0` reads it). -/
def scoreOf (sc : List (List Char × Nat)) (sid : List Char) : Nat :=
  (sc.lookup sid).getD 0

end DocumentParser

namespace DocumentParser

open TextUtils

theorem foldl_preserve {α β : Type} (P : α → Prop) (f : α → β → α)
    (h : ∀ a b, P a → P (f a b)) : ∀ (l : List β) (a : α), P a → P (l.foldl f a) := by
  intro l
  induction l with
  | nil => intro a ha; simpa using ha
  | cons b rest ih => intro a ha; simpa using ih (f a b) (h a b ha)

theorem lookup_mem {β : Type} (sc : List (List Char × β)) (k : List Char) (v : β)
    (h : sc.lookup k = some v) : (k, v) ∈ sc := by
  induction sc with
  | nil => simp [List.lookup] at h
  | cons p rest ih =>
    rw [List.lookup] at h
    by_cases hk : k = p.1
    · simp [hk] at h
      subst h hk
      exact List.mem_cons_self _ _
    · have : (k == p.1) = false := by simpa using hk
      rw [this] at h
      exact List.mem_cons_of_mem _ (ih h)

theorem addToIndex_allNodup (idx : SearchIndex) (kw sid : List Char)
    (h : ∀ e ∈ idx, e.2.Nodup) : ∀ e ∈ addToIndex idx kw sid, e.2.Nodup := by
  induction idx with
  | nil =>
    intro e he
    simp [addToIndex] at he
    simp [he]
  | cons p rest ih =>
    obtain ⟨k, ids⟩ := p
    intro e he
    rw [addToIndex] at he
    by_cases hk : k = kw
    · simp only [hk, if_true] at he
      rcases List.mem_cons.mp he with h1 | h2
      · subst h1
        by_cases hs : sid ∈ ids
        · simpa [hs] using h (kw, ids) (by simp [hk])
        · simp only [hs, if_neg, not_false_iff]
          exact List.Nodup.append (h (kw, ids) (by simp [hk])) (List.nodup_singleton sid)
            (by simpa using hs)
      · exact h e (List.mem_cons_of_mem _ h2)
    · simp only [hk, if_false] at he
      rcases List.mem_cons.mp he with h1 | h2
      · subst h1
        exact h (k, ids) (List.mem_cons_self _ _)
      · exact ih (fun e' he' => h e' (List.mem_cons_of_mem _ he')) e h2

/-- Every id list of a built search index is duplicate-free (the source guards
the push with an `includes` check). -/
theorem buildSearchIndex_nodup (sections : SecMap) (kw : List Char) :
    (indexIds (buildSearchIndex sections) kw).Nodup := by
  have hall : ∀ e ∈ buildSearchIndex sections, e.2.Nodup := by
    unfold buildSearchIndex
    exact foldl_preserve (fun (idx : SearchIndex) => ∀ e ∈ idx, e.2.Nodup)
      (fun idx p =>
        (extractKeywords p.2.title ++ extractKeywords p.2.fullText).foldl
          (fun idx2 kw2 => addToIndex idx2 kw2 p.1) idx)
      (fun idx p hidx =>
        foldl_preserve (fun (idx2 : SearchIndex) => ∀ e ∈ idx2, e.2.Nodup)
          (fun idx2 kw2 => addToIndex idx2 kw2 p.1)
          (fun a b ha => addToIndex_allNodup a b p.1 ha)
          (extractKeywords p.2.title ++ extractKeywords p.2.fullText) idx hidx)
      sections [] (by simp)
  unfold indexIds
  cases h : (buildSearchIndex sections).lookup kw with
  | none => simp
  | some ids => simpa using hall (kw, ids) (lookup_mem _ _ _ h)

theorem bump_scoreOf_self (sc : List (List Char × Nat)) (sid : List Char) :
    scoreOf (bump sc sid) sid = scoreOf sc sid + 1 := by
  induction sc with
  | nil => simp [bump, scoreOf, List.lookup]
  | cons p rest ih =>
    obtain ⟨k, v⟩ := p
    by_cases hk : k = sid
    · subst hk
      simp [bump, scoreOf, List.lookup]
    · have hks : (sid == k) = false := by
        simpa using fun h => hk h.symm
      simp only [bump, if_neg hk, scoreOf, List.lookup, hks]
      exact ih

theorem bump_scoreOf_ne (sc : List (List Char × Nat)) (sid j : List Char)
    (hne : j ≠ sid) : scoreOf (bump sc sid) j = scoreOf sc j := by
  induction sc with
  | nil =>
    have : (j == sid) = false := by simpa using hne
    simp [bump, scoreOf, List.lookup, this]
  | cons p rest ih =>
    obtain ⟨k, v⟩ := p
    by_cases hk : k = sid
    · subst hk
      have : (j == k) = false := by simpa using hne
      simp [bump, scoreOf, List.lookup, this]
    · by_cases hj : j = k
      · subst hj
        simp [bump, if_neg hk, scoreOf, List.lookup]
      · have hjk : (j == k) = false := by simpa using hj
        simp only [bump, if_neg hk, scoreOf, List.lookup, hjk]
        exact ih

theorem bump_keys_mem (sc : List (List Char × Nat)) (sid j : List Char) :
    j ∈ (bump sc sid).map Prod.fst ↔ j ∈ sc.map Prod.fst ∨ j = sid := by
  induction sc with
  | nil => simp [bump]
  | cons p rest ih =>
    obtain ⟨k, v⟩ := p
    by_cases hk : k = sid
    · by_cases hj : j = sid <;> simp [bump, hk, hj] <;> tauto
    · by_cases hj : j = k <;> simp only [bump, if_neg hk, List.map_cons, List.mem_cons, ih] <;>
        tauto

theorem bump_keys_nodup (sc : List (List Char × Nat)) (sid : List Char)
    (h : (sc.map Prod.fst).Nodup) : ((bump sc sid).map Prod.fst).Nodup := by
  induction sc with
  | nil => simp [bump]
  | cons p rest ih =>
    obtain ⟨k, v⟩ := p
    rw [List.map_cons, List.nodup_cons] at h
    by_cases hk : k = sid
    · subst hk
      simpa [bump, List.nodup_cons] using h
    · rw [bump, if_neg hk, List.map_cons, List.nodup_cons]
      refine ⟨?_, ih h.2⟩
      intro hmem
      rcases (bump_keys_mem rest sid k).mp hmem with h1 | h1
      · exact h.1 h1
      · exact hk h1

theorem foldl_bump_scoreOf (ids : List (List Char)) (hnd : ids.Nodup)
    (sc : List (List Char × Nat)) (j : List Char) :
    scoreOf (ids.foldl bump sc) j = scoreOf sc j + (if j ∈ ids then 1 else 0) := by
  induction ids generalizing sc with
  | nil => simp
  | cons i rest ih =>
    rw [List.nodup_cons] at hnd
    rw [List.foldl_cons, ih hnd.2]
    by_cases hj : j = i
    · subst hj
      rw [bump_scoreOf_self]
      have hrest : j ∉ rest := hnd.1
      simp [hrest]
    · rw [bump_scoreOf_ne _ _ _ (by simpa using hj)]
      by_cases hr : j ∈ rest <;> simp [hr, hj]

theorem foldl_bump_keys_nodup (ids : List (List Char)) (sc : List (List Char × Nat))
    (h : (sc.map Prod.fst).Nodup) : ((ids.foldl bump sc).map Prod.fst).Nodup := by
  induction ids generalizing sc with
  | nil => simpa using h
  | cons i rest ih => exact ih _ (bump_keys_nodup _ _ h)

theorem sectionScores_scoreOf (idx : SearchIndex) (keywords : List (List Char))
    (hnd : ∀ kw, (indexIds idx kw).Nodup) (j : List Char) :
    scoreOf (sectionScores idx keywords) j =
      (keywords.filter (fun kw => decide (j ∈ indexIds idx kw))).length := by
  have main : ∀ (kws : List (List Char)) (sc : List (List Char × Nat)),
      scoreOf (kws.foldl (fun sc kw => (indexIds idx kw).foldl bump sc) sc) j =
        scoreOf sc j + (kws.filter (fun kw => decide (j ∈ indexIds idx kw))).length := by
    intro kws
    induction kws with
    | nil => simp
    | cons kw rest ih =>
      intro sc
      rw [List.foldl_cons, ih, foldl_bump_scoreOf _ (hnd kw)]
      by_cases hm : j ∈ indexIds idx kw <;> simp [hm, List.filter_cons] <;> omega
  have := main keywords []
  simpa [sectionScores, scoreOf] using this

theorem sectionScores_keys_nodup (idx : SearchIndex) (keywords : List (List Char)) :
    ((sectionScores idx keywords).map Prod.fst).Nodup := by
  unfold sectionScores
  exact foldl_preserve
    (fun (sc : List (List Char × Nat)) => (sc.map Prod.fst).Nodup)
    (fun sc kw => (indexIds idx kw).foldl bump sc)
    (fun sc kw h => foldl_bump_keys_nodup _ _ h) keywords [] (by simp)

theorem assoc_pair_scoreOf (sc : List (List Char × Nat))
    (h : (sc.map Prod.fst).Nodup) : ∀ p ∈ sc, scoreOf sc p.1 = p.2 := by
  induction sc with
  | nil => simp
  | cons q rest ih =>
    obtain ⟨k, v⟩ := q
    rw [List.map_cons, List.nodup_cons] at h
    intro p hp
    rcases List.mem_cons.mp hp with h1 | h1
    · subst h1
      simp [scoreOf, List.lookup]
    · have hne : p.1 ≠ k := by
        intro hc
        have hmem : p.1 ∈ rest.map Prod.fst := List.mem_map_of_mem Prod.fst h1
        rw [hc] at hmem
        exact h.1 hmem
      have hbe : (p.1 == k) = false := by simpa using hne
      simp only [scoreOf, List.lookup, hbe]
      exact ih h.2 p h1

theorem insertDesc_perm (x : List Char × Nat) (l : List (List Char × Nat)) :
    List.Perm (insertDesc x l) (x :: l) := by
  induction l with
  | nil => exact List.Perm.refl _
  | cons y rest ih =>
    rw [insertDesc]
    by_cases hc : y.2 > x.2
    · rw [if_pos hc]
      exact (ih.cons y).trans (List.Perm.swap x y rest)
    · rw [if_neg hc]

theorem insertDesc_pairwise (x : List Char × Nat) (l : List (List Char × Nat))
    (h : l.Pairwise (fun a b => b.2 ≤ a.2)) :
    (insertDesc x l).Pairwise (fun a b => b.2 ≤ a.2) := by
  induction l with
  | nil => simp [insertDesc]
  | cons y rest ih =>
    rw [List.pairwise_cons] at h
    rw [insertDesc]
    by_cases hc : y.2 > x.2
    · rw [if_pos hc, List.pairwise_cons]
      refine ⟨?_, ih h.2⟩
      intro b hb
      rcases List.mem_cons.mp ((insertDesc_perm x rest).mem_iff.mp hb) with h1 | h1
      · subst h1; omega
      · exact h.1 b h1
    · rw [if_neg hc, List.pairwise_cons]
      refine ⟨?_, List.Pairwise.cons h.1 h.2⟩
      intro b hb
      rcases List.mem_cons.mp hb with h1 | h1
      · subst h1; omega
      · have := h.1 b h1
        omega

theorem insertDesc_filter_score (x : List Char × Nat) (l : List (List Char × Nat))
    (s : Nat) :
    (insertDesc x l).filter (fun p => decide (p.2 = s)) =
      (x :: l).filter (fun p => decide (p.2 = s)) := by
  induction l with
  | nil => rfl
  | cons y rest ih =>
    rw [insertDesc]
    by_cases hc : y.2 > x.2
    · rw [if_pos hc]
      by_cases hx : x.2 = s <;> by_cases hy : y.2 = s
      · omega
      · simp [List.filter_cons, hx, hy] at ih ⊢
        exact ih
      · simp [List.filter_cons, hx, hy] at ih ⊢
        exact ih
      · simp [List.filter_cons, hx, hy] at ih ⊢
        exact ih
    · rw [if_neg hc]

theorem sortDesc_pairwise (l : List (List Char × Nat)) :
    (sortDesc l).Pairwise (fun a b => b.2 ≤ a.2) := by
  induction l with
  | nil => simp [sortDesc]
  | cons x rest ih => exact insertDesc_pairwise x _ ih

theorem sortDesc_filter_score (l : List (List Char × Nat)) (s : Nat) :
    (sortDesc l).filter (fun p => decide (p.2 = s)) =
      l.filter (fun p => decide (p.2 = s)) := by
  induction l with
  | nil => rfl
  | cons x rest ih =>
    rw [sortDesc, insertDesc_filter_score, List.filter_cons, List.filter_cons, ih]

end DocumentParser

namespace DocumentParser

open TextUtils

/-- Claim C3 (amended): `searchSections` scores each section by the number of
query-token OCCURRENCES (after stop-word filtering) whose index entry contains
it — a token repeated in the query contributes once per occurrence, not at
most once; results are sorted descending by score with ties in
first-encountered order (stable), and for a non-negative limit at most `limit`
entries are returned.  The duplicate-free-index hypothesis is the source's own
invariant (`buildSearchIndex_nodup`). -/
theorem searchSections_ranking (data : DocumentData) (query : List Char) (limit : Int)
    (hnd : ∀ kw, (indexIds data.searchIndex kw).Nodup) (hlim : 0 ≤ limit) :
    (searchSections data query limit).length ≤ limit.toNat ∧
      List.Pairwise (fun a b => b.score ≤ a.score) (searchSections data query limit) ∧
      (∀ s, (sortDesc (sectionScores data.searchIndex (extractKeywords query))).filter
            (fun p => decide (p.2 = s)) =
          (sectionScores data.searchIndex (extractKeywords query)).filter
            (fun p => decide (p.2 = s))) ∧
      (∀ sid, scoreOf (sectionScores data.searchIndex (extractKeywords query)) sid =
        ((extractKeywords query).filter
          (fun kw => decide (sid ∈ indexIds data.searchIndex kw))).length) ∧
      (∀ p ∈ sectionScores data.searchIndex (extractKeywords query),
        p.2 = ((extractKeywords query).filter
          (fun kw => decide (p.1 ∈ indexIds data.searchIndex kw))).length) := by
  refine ⟨?_, ?_, ?_, ?_, ?_⟩
  · unfold searchSections jsSliceTo
    rw [if_neg (by omega)]
    simpa using List.length_take_le _ _
  · unfold searchSections
    rw [List.pairwise_map]
    have hsub : (jsSliceTo (sortDesc (sectionScores data.searchIndex
        (extractKeywords query))) limit).Sublist
        (sortDesc (sectionScores data.searchIndex (extractKeywords query))) := by
      unfold jsSliceTo
      split
      · exact List.take_sublist _ _
      · exact List.take_sublist _ _
    have hp := List.Pairwise.sublist hsub
      (sortDesc_pairwise (sectionScores data.searchIndex (extractKeywords query)))
    exact hp.imp (fun h => h)
  · intro s
    exact sortDesc_filter_score _ s
  · intro sid
    exact sectionScores_scoreOf _ _ hnd sid
  · intro p hp
    have h1 := assoc_pair_scoreOf _ (sectionScores_keys_nodup data.searchIndex
      (extractKeywords query)) p hp
    rw [← h1]
    exact sectionScores_scoreOf _ _ hnd p.1

/-- The single demo section used for concrete evaluations. -/
def farmSec : Sec :=
  { id := "secA".toList, type := "section".toList,
    title := "farm subsidy program".toList, content := "farm subsidy program".toList,
    fullText := "farm subsidy program".toList, level := 1, parentId := none,
    children := [] }

/-- A one-section document snapshot with its built inverted index. -/
def demoData : DocumentData :=
  { sections := [("secA".toList, farmSec)],
    searchIndex := buildSearchIndex [("secA".toList, farmSec)] }

/-- Claim C3 counterexample: on a snapshot whose index lists the section under
"farm", the query "farm farm" (one token repeated) yields score 2, while the
number of DISTINCT matching query tokens is 1 — the code scores per
occurrence, so the claim's distinct-token scoring is false. -/
theorem searchSections_distinct_score_counterexample :
    (searchSections demoData "farm farm".toList 10).map ScoredSection.score = [2] ∧
      specDistinctScore demoData "farm farm".toList "secA".toList = 1 := by
  decide

/-- Witness for claim C3's amended theorem at a concrete snapshot and query. -/
theorem searchSections_ranking_witness :
    (searchSections demoData "farm subsidy".toList 3).length ≤ (3 : Int).toNat ∧
      scoreOf (sectionScores demoData.searchIndex (extractKeywords "farm subsidy".toList))
          "secA".toList =
        ((extractKeywords "farm subsidy".toList).filter
          (fun kw => decide ("secA".toList ∈ indexIds demoData.searchIndex kw))).length :=
  ⟨(searchSections_ranking demoData "farm subsidy".toList 3
      (fun kw => buildSearchIndex_nodup [("secA".toList, farmSec)] kw) (by omega)).1,
    (searchSections_ranking demoData "farm subsidy".toList 3
      (fun kw => buildSearchIndex_nodup [("secA".toList, farmSec)] kw) (by omega)).2.2.2.1
      "secA".toList⟩

end DocumentParser

namespace DocumentParser

open TextUtils

/-- The `stripTags` helper from `textUtils.js` (`replace(/<[^>]*>/g, '')`):
`buf = some acc` holds the characters consumed since an unmatched `<`
(reversed), emitted verbatim when the input ends without a closing `>`. -/
def stripTagsAux (buf : Option (List Char)) : List Char → List Char
  | [] =>
    match buf with
    | some acc => acc.reverse
    | none => []
  | c :: rest =>
    match buf with
    | none =>
      if c = '<' then stripTagsAux (some [c]) rest
      else c :: stripTagsAux none rest
    | some acc =>
      if c = '>' then stripTagsAux none rest
      else stripTagsAux (some (c :: acc)) rest

/-- `stripTags` from `textUtils.js`: drop complete `<...>` tags, then trim;
falsy input yields the empty string. -/
def stripTags (l : List Char) : List Char :=
  if l = [] then [] else jsTrim (stripTagsAux none l)

/-- The xml2js attribute object `$` (only the attributes the parser reads). -/
structure Attrs where
  id : Option (List Char)
  sectionType : Option (List Char)
deriving DecidableEq, Repr

mutual
inductive XNode : Type where
  | str (s : List Char)
  | obj (attrs : Option Attrs) (text : Option (List Char)) (fields : XFields)
inductive XFields : Type where
  | nil
  | cons (key : List Char) (items : XItems) (rest : XFields)
inductive XItems : Type where
  | inil
  | icons (item : XNode) (rest : XItems)
end

/-- The truthiness test `obj.$ && obj.$.id` (an empty id string is falsy). -/
def idAttr : XNode → Option (List Char)
  | .str _ => none
  | .obj attrs _ _ =>
    match attrs with
    | none => none
    | some a =>
      match a.id with
      | none => none
      | some s => if s = [] then none else some s

/-- `(obj.$ && obj.$['section-type']) || 'section'`. -/
def sectionTypeOf (attrs : Option Attrs) : List Char :=
  match attrs with
  | none => "section".toList
  | some a =>
    match a.sectionType with
    | none => "section".toList
    | some s => if s = [] then "section".toList else s

/-- `extractTextContent` from `documentParser.js` restricted to the array-item
shapes xml2js produces (a string, or an element whose `_` holds its text). -/
def extractTextContent : XNode → List Char
  | .str s => s
  | .obj _ t _ => t.getD []

/-- JS truthiness of an array element (`obj.header[0]`): an empty string is
falsy, any object is truthy. -/
def itemTruthy : XNode → Bool
  | .str s => !s.isEmpty
  | .obj _ _ _ => true

def firstTruthy : XItems → Option XNode
  | .inil => none
  | .icons it _ => if itemTruthy it then some it else none

def lookupField : XFields → List Char → Option XItems
  | .nil, _ => none
  | .cons k items rest, key => if k = key then some items else lookupField rest key

/-- The title derivation of `extractSectionDataSimple`: a truthy `header[0]`
first, falling back to a truthy `enum[0]`, else the empty string. -/
def titleOf (fs : XFields) : List Char :=
  match (lookupField fs "header".toList).bind firstTruthy with
  | some it => extractTextContent it
  | none =>
    match (lookupField fs "enum".toList).bind firstTruthy with
    | some it => extractTextContent it
    | none => []

def itemsTexts : XItems → List (List Char)
  | .inil => []
  | .icons it rest => extractTextContent it :: itemsTexts rest

/-- The content derivation: `obj.text.map(extractTextContent).join(' ')` when
the `text` key is present. -/
def contentOf (fs : XFields) : List Char :=
  match lookupField fs "text".toList with
  | some items => List.intercalate [' '] (itemsTexts items)
  | none => []

/-- The `obj._` contribution guarded by truthiness (`if (obj && obj._)`). -/
def textOnce : Option (List Char) → List Char
  | some s => if s = [] then [] else s ++ [' ']
  | none => []

/-- The `_` entry seen again by the `Object.entries` loop (string branch,
no truthiness guard), so a node's own text is concatenated twice. -/
def textEntry : Option (List Char) → List Char
  | some s => s ++ [' ']
  | none => []

mutual
def extractAllTextRecursive : XNode → List Char
  | .str s => s
  | .obj _ t fs => textOnce t ++ textEntry t ++ allTextFields fs
def allTextFields : XFields → List Char
  | .nil => []
  | .cons _ items rest => allTextItems items ++ allTextFields rest
def allTextItems : XItems → List Char
  | .inil => []
  | .icons item rest => extractAllTextRecursive item ++ [' '] ++ allTextItems rest
end

/-- `extractSectionDataSimple` from `documentParser.js`.  The `fails` oracle
models the `try/catch`: the source catches any exception thrown while
extracting and returns `null`, skipping the section (the `metadata`
sub-object, which merely repeats attribute values, is omitted). -/
def extractSectionDataSimple (fails : XNode → Bool) (n : XNode)
    (parentId : Option (List Char)) (level : Nat) : Option Sec :=
  if fails n then none
  else
    match n with
    | .str _ => none
    | .obj attrs _ fs =>
      match idAttr n with
      | none => none
      | some i =>
        some
          { id := i
            type := sectionTypeOf attrs
            title := jsTrim (stripTags (titleOf fs))
            content := jsTrim (stripTags (contentOf fs))
            fullText := jsTrim (stripTags (extractAllTextRecursive n))
            level := level
            parentId := parentId
            children := [] }

/-- `sections[section.id] = section`: overwrite in place or append. -/
def setKey : SecMap → List Char → Sec → SecMap
  | [], k, v => [(k, v)]
  | (k0, v0) :: rest, k, v =>
    if k0 = k then (k0, v) :: rest else (k0, v0) :: setKey rest k v

mutual
/-- `processSectionsSimple` from `documentParser.js`: materialize a section at
every id-bearing node, then recurse into the element-children arrays.  An
id-bearing array item is visited with `parentId = (obj.$ && obj.$.id) ||
parentId` and `level + 1`; an id-less item is visited with the CALLER's
`parentId` and `level` unchanged (the enclosing node's id is not substituted).
The `$` attribute object and the `_` string entry, which the source also
iterates, contribute no sections and are omitted from the recursion. -/
def processSectionsSimple (fails : XNode → Bool) (n : XNode) (secs : SecMap)
    (parentId : Option (List Char)) (level : Nat) : SecMap :=
  match n with
  | .str _ => secs
  | .obj _ _ fs =>
    let secs1 :=
      match idAttr n with
      | some _ =>
        match extractSectionDataSimple fails n parentId level with
        | some s => setKey secs s.id s
        | none => secs
      | none => secs
    processFields fails fs ((idAttr n).orElse (fun _ => parentId)) parentId level secs1
def processFields (fails : XNode → Bool) (fs : XFields)
    (pidIfId pid : Option (List Char)) (level : Nat) (secs : SecMap) : SecMap :=
  match fs with
  | .nil => secs
  | .cons _ items rest =>
    processFields fails rest pidIfId pid level
      (processItems fails items pidIfId pid level secs)
def processItems (fails : XNode → Bool) (items : XItems)
    (pidIfId pid : Option (List Char)) (level : Nat) (secs : SecMap) : SecMap :=
  match items with
  | .inil => secs
  | .icons (.str _) rest => processItems fails rest pidIfId pid level secs
  | .icons (.obj attrs t fs) rest =>
    match idAttr (XNode.obj attrs t fs) with
    | some _ =>
      processItems fails rest pidIfId pid level
        (processSectionsSimple fails (XNode.obj attrs t fs) secs pidIfId (level + 1))
    | none =>
      processItems fails rest pidIfId pid level
        (processSectionsSimple fails (XNode.obj attrs t fs) secs pid level)
end

end DocumentParser

namespace DocumentParser

open TextUtils

/-- The oracle for runs in which no extraction throws (the pure reading of the
extraction body never throws; the catch branch is dead). -/
def noFail : XNode → Bool := fun _ => false

theorem setKey_keys_mem (secs : SecMap) (k : List Char) (v : Sec) (x : List Char) :
    x ∈ (setKey secs k v).map Prod.fst ↔ x ∈ secs.map Prod.fst ∨ x = k := by
  induction secs with
  | nil => simp [setKey]
  | cons p rest ih =>
    obtain ⟨k0, v0⟩ := p
    by_cases hk : k0 = k
    · simp only [setKey]
      rw [if_pos hk]
      subst hk
      simp only [List.map_cons, List.mem_cons]
      tauto
    · simp only [setKey]
      rw [if_neg hk]
      simp only [List.map_cons, List.mem_cons, ih]
      tauto

theorem setKey_mem_elim (secs : SecMap) (k : List Char) (v : Sec) (p : List Char × Sec)
    (hp : p ∈ setKey secs k v) : p ∈ secs ∨ p = (k, v) := by
  induction secs with
  | nil =>
    simp only [setKey] at hp
    simp only [List.mem_singleton] at hp
    exact Or.inr hp
  | cons q rest ih =>
    obtain ⟨k0, v0⟩ := q
    by_cases hk : k0 = k
    · simp only [setKey, if_pos hk] at hp
      rcases List.mem_cons.mp hp with h | h
      · right
        rw [h, hk]
      · exact Or.inl (List.mem_cons_of_mem _ h)
    · simp only [setKey, if_neg hk] at hp
      rcases List.mem_cons.mp hp with h | h
      · left
        rw [h]
        exact List.mem_cons_self _ _
      · rcases ih h with h1 | h1
        · exact Or.inl (List.mem_cons_of_mem _ h1)
        · exact Or.inr h1

/-- `parentId` is unset or names an existing key of the map. -/
def ParentOk (secs : SecMap) (pid : Option (List Char)) : Prop :=
  ∀ q, pid = some q → q ∈ secs.map Prod.fst

/-- Every section of the map has an unset or resolvable `parentId`. -/
def SecsOk (secs : SecMap) : Prop :=
  ∀ p ∈ secs, ParentOk secs p.2.parentId

theorem parentOk_mono {s1 s2 : SecMap} {pid : Option (List Char)}
    (hsub : ∀ x, x ∈ s1.map Prod.fst → x ∈ s2.map Prod.fst)
    (h : ParentOk s1 pid) : ParentOk s2 pid :=
  fun q hq => hsub q (h q hq)

theorem extractSectionDataSimple_spec (n : XNode) (pid : Option (List Char))
    (level : Nat) (i : List Char) (hid : idAttr n = some i) :
    ∃ s, extractSectionDataSimple noFail n pid level = some s ∧
      s.id = i ∧ s.parentId = pid := by
  cases n with
  | str s => simp [idAttr] at hid
  | obj attrs t fs =>
    refine ⟨{ id := i, type := sectionTypeOf attrs,
              title := jsTrim (stripTags (titleOf fs)),
              content := jsTrim (stripTags (contentOf fs)),
              fullText :=
                jsTrim (stripTags (extractAllTextRecursive (XNode.obj attrs t fs))),
              level := level, parentId := pid, children := [] }, ?_, rfl, rfl⟩
    simp [extractSectionDataSimple, noFail, hid]

mutual
theorem processSections_keys_mono (fails : XNode → Bool) (n : XNode) :
    ∀ (secs : SecMap) (pid : Option (List Char)) (level : Nat) (x : List Char),
      x ∈ secs.map Prod.fst →
      x ∈ (processSectionsSimple fails n secs pid level).map Prod.fst := by
  intro secs pid level x hx
  cases n with
  | str s => exact hx
  | obj attrs t fs =>
    rw [processSectionsSimple]
    apply processFields_keys_mono
    cases hi : idAttr (XNode.obj attrs t fs) with
    | none => exact hx
    | some i =>
      cases he : extractSectionDataSimple fails (XNode.obj attrs t fs) pid level with
      | none => exact hx
      | some s => exact (setKey_keys_mem secs s.id s x).mpr (Or.inl hx)
theorem processFields_keys_mono (fails : XNode → Bool) (fs : XFields) :
    ∀ (pidIfId pid : Option (List Char)) (level : Nat) (secs : SecMap) (x : List Char),
      x ∈ secs.map Prod.fst →
      x ∈ (processFields fails fs pidIfId pid level secs).map Prod.fst := by
  intro pidIfId pid level secs x hx
  cases fs with
  | nil => exact hx
  | cons key items rest =>
    rw [processFields]
    exact processFields_keys_mono fails rest pidIfId pid level _ x
      (processItems_keys_mono fails items pidIfId pid level secs x hx)
theorem processItems_keys_mono (fails : XNode → Bool) (items : XItems) :
    ∀ (pidIfId pid : Option (List Char)) (level : Nat) (secs : SecMap) (x : List Char),
      x ∈ secs.map Prod.fst →
      x ∈ (processItems fails items pidIfId pid level secs).map Prod.fst := by
  intro pidIfId pid level secs x hx
  cases items with
  | inil => exact hx
  | icons item rest =>
    cases item with
    | str s =>
      rw [processItems]
      exact processItems_keys_mono fails rest pidIfId pid level secs x hx
    | obj attrs t fs =>
      rw [processItems]
      cases hi : idAttr (XNode.obj attrs t fs) with
      | none =>
        exact processItems_keys_mono fails rest pidIfId pid level _ x
          (processSections_keys_mono fails (XNode.obj attrs t fs) secs pid level x hx)
      | some i =>
        exact processItems_keys_mono fails rest pidIfId pid level _ x
          (processSections_keys_mono fails (XNode.obj attrs t fs) secs pidIfId
            (level + 1) x hx)
end

mutual
theorem processSections_ok (n : XNode) :
    ∀ (secs : SecMap) (pid : Option (List Char)) (level : Nat),
      SecsOk secs → ParentOk secs pid →
      SecsOk (processSectionsSimple noFail n secs pid level) := by
  intro secs pid level hsecs hpid
  cases n with
  | str s => exact hsecs
  | obj attrs t fs =>
    rw [processSectionsSimple]
    cases hi : idAttr (XNode.obj attrs t fs) with
    | none => exact processFields_ok fs pid pid level secs hsecs hpid hpid
    | some i =>
      obtain ⟨s, he, hsid, hspid⟩ := extractSectionDataSimple_spec _ pid level i hi
      rw [he]
      have hmono : ∀ x, x ∈ secs.map Prod.fst → x ∈ (setKey secs s.id s).map Prod.fst :=
        fun x hx => (setKey_keys_mem secs s.id s x).mpr (Or.inl hx)
      have hsecs1 : SecsOk (setKey secs s.id s) := by
        intro p hp
        rcases setKey_mem_elim secs s.id s p hp with h1 | h1
        · exact parentOk_mono hmono (hsecs p h1)
        · rw [h1]
          simp only [hspid]
          exact parentOk_mono hmono hpid
      have hpid1 : ParentOk (setKey secs s.id s) pid := parentOk_mono hmono hpid
      have hi1 : ParentOk (setKey secs s.id s) (some i) := by
        intro q hq
        cases hq
        rw [← hsid]
        exact (setKey_keys_mem secs s.id s s.id).mpr (Or.inr rfl)
      exact processFields_ok fs (some i) pid level _ hsecs1 hi1 hpid1
theorem processFields_ok (fs : XFields) :
    ∀ (pidIfId pid : Option (List Char)) (level : Nat) (secs : SecMap),
      SecsOk secs → ParentOk secs pidIfId → ParentOk secs pid →
      SecsOk (processFields noFail fs pidIfId pid level secs) := by
  intro pidIfId pid level secs hsecs h1 h2
  cases fs with
  | nil => exact hsecs
  | cons key items rest =>
    rw [processFields]
    have hstep := processItems_ok items pidIfId pid level secs hsecs h1 h2
    have hmono : ∀ x, x ∈ secs.map Prod.fst →
        x ∈ (processItems noFail items pidIfId pid level secs).map Prod.fst :=
      fun x hx => processItems_keys_mono noFail items pidIfId pid level secs x hx
    exact processFields_ok rest pidIfId pid level _ hstep
      (parentOk_mono hmono h1) (parentOk_mono hmono h2)
theorem processItems_ok (items : XItems) :
    ∀ (pidIfId pid : Option (List Char)) (level : Nat) (secs : SecMap),
      SecsOk secs → ParentOk secs pidIfId → ParentOk secs pid →
      SecsOk (processItems noFail items pidIfId pid level secs) := by
  intro pidIfId pid level secs hsecs h1 h2
  cases items with
  | inil => exact hsecs
  | icons item rest =>
    cases item with
    | str s =>
      rw [processItems]
      exact processItems_ok rest pidIfId pid level secs hsecs h1 h2
    | obj attrs t fs =>
      rw [processItems]
      cases hi : idAttr (XNode.obj attrs t fs) with
      | none =>
        have hstep := processSections_ok (XNode.obj attrs t fs) secs pid level hsecs h2
        have hmono : ∀ x, x ∈ secs.map Prod.fst →
            x ∈ (processSectionsSimple noFail (XNode.obj attrs t fs) secs
              pid level).map Prod.fst :=
          fun x hx =>
            processSections_keys_mono noFail (XNode.obj attrs t fs) secs pid level x hx
        exact processItems_ok rest pidIfId pid level _ hstep
          (parentOk_mono hmono h1) (parentOk_mono hmono h2)
      | some i =>
        have hstep := processSections_ok (XNode.obj attrs t fs) secs pidIfId
          (level + 1) hsecs h1
        have hmono : ∀ x, x ∈ secs.map Prod.fst →
            x ∈ (processSectionsSimple noFail (XNode.obj attrs t fs) secs
              pidIfId (level + 1)).map Prod.fst :=
          fun x hx =>
            processSections_keys_mono noFail (XNode.obj attrs t fs) secs pidIfId
              (level + 1) x hx
        exact processItems_ok rest pidIfId pid level _ hstep
          (parentOk_mono hmono h1) (parentOk_mono hmono h2)
end

end DocumentParser

namespace DocumentParser

/-- Child node with id "c" (no text, no element children). -/
def childNode : XNode :=
  .obj (some { id := some "c".toList, sectionType := none }) none .nil

/-- Root node with id "p" and one element-array child `childNode`. -/
def demoFailTree : XNode :=
  .obj (some { id := some "p".toList, sectionType := none }) none
    (.cons "section".toList (.icons childNode .inil) .nil)

/-- Failure oracle taking the catch branch exactly at the root node (id "p"). -/
def demoFails (n : XNode) : Bool := decide (idAttr n = some "p".toList)

/-- Claim C6 counterexample: when the id-bearing root's extraction fails (the
source's catch branch returns null and skips it) while its id-bearing child
extracts successfully, the child's `parentId` still names the skipped root
"p", which is absent from the finished map — so the invariant does not cover
the ancestor-extraction-failure case the claim includes. -/
theorem processSections_orphan_counterexample :
    ((processSectionsSimple demoFails demoFailTree [] none 0).map
        (fun p => (p.1, p.2.parentId))) = [("c".toList, some "p".toList)] ∧
      "p".toList ∉ (processSectionsSimple demoFails demoFailTree [] none 0).map Prod.fst := by
  decide

/-- Claim C6 (amended): in a run where no section extraction fails — which is
every run of the extraction body's pure semantics — every section in the map
built by `processSectionsSimple` from an empty map has a `parentId` that is
either unset or a key present in the finished map (`ParentOk`). -/
theorem processSections_parent_invariant (root : XNode) (p : List Char × Sec)
    (hp : p ∈ processSectionsSimple noFail root [] none 0) :
    ParentOk (processSectionsSimple noFail root [] none 0) p.2.parentId := by
  have hok : SecsOk (processSectionsSimple noFail root [] none 0) := by
    refine processSections_ok root [] none 0 ?_ ?_
    · intro q hq
      cases hq
    · intro q hq
      cases hq
  exact hok p hp

/-- A one-node tree (id "p") for the witness run. -/
def rootOnlyTree : XNode :=
  .obj (some { id := some "p".toList, sectionType := none }) none .nil

def defaultSec : Sec :=
  { id := [], type := [], title := [], content := [], fullText := [], level := 0,
    parentId := none, children := [] }

/-- The single entry of the witness run. -/
def rootOnlyEntry : List Char × Sec :=
  (processSectionsSimple noFail rootOnlyTree [] none 0).getD 0 ([], defaultSec)

/-- Witness for claim C6's amended theorem on a concrete tree. -/
theorem processSections_parent_invariant_witness :
    rootOnlyEntry ∈ processSectionsSimple noFail rootOnlyTree [] none 0 ∧
      ParentOk (processSectionsSimple noFail rootOnlyTree [] none 0)
        rootOnlyEntry.2.parentId :=
  ⟨by decide, processSections_parent_invariant rootOnlyTree rootOnlyEntry (by decide)⟩

end DocumentParser

namespace LLMService

open TextUtils DocumentParser

/-- `truncateText` from `textUtils.js`. -/
def truncateText (t : List Char) (maxLength : Nat) : List Char :=
  if t = [] then []
  else if t.length ≤ maxLength then t
  else jsTrim (t.take maxLength) ++ "...".toList

/-- A JavaScript value as it may appear in a tool-call input field. -/
inductive JSVal where
  | vstr (s : List Char)
  | vnum (n : Int)
deriving DecidableEq, Repr

/-- The input object of a tool invocation; absent keys are `none`, and
`maxResults`, when present, is a number (as its schema declares). -/
structure ToolInput where
  query : Option JSVal := none
  sectionId : Option JSVal := none
  topic : Option JSVal := none
  impactType : Option JSVal := none
  maxResults : Option Int := none
deriving DecidableEq, Repr

/-- One entry of an executor's `results` array.  The source reads
`result.section.id` etc.; the section is an `Option` in the model (a JS
property access on `undefined` would throw), so the projections are optional
as well. -/
structure ToolEntry where
  id : Option (List Char)
  title : Option (List Char)
  content : Option (List Char)
  level : Option Nat
  type : Option (List Char)
  score : Nat
  excerpt : Option (List Char)
deriving DecidableEq, Repr

/-- The per-result projection shared by the three search executors
(`contentCap` is 300 for keyword search, 250 for topic and financial). -/
def toEntry (contentCap : Nat) (r : ScoredSection) : ToolEntry :=
  { id := r.sec.map Sec.id
    title := r.sec.map Sec.title
    content := r.sec.map (fun s => truncateText s.fullText contentCap)
    level := r.sec.map Sec.level
    type := r.sec.map Sec.type
    score := r.score
    excerpt := r.sec.map (fun s => truncateText s.fullText 200) }

structure SearchSectionsOut where
  query : List Char
  results : List ToolEntry
  totalFound : Nat
deriving DecidableEq, Repr

structure SearchByTopicOut where
  topic : List Char
  searchKeywords : List (List Char)
  results : List ToolEntry
  totalFound : Nat
deriving DecidableEq, Repr

structure FinancialImpactOut where
  impactType : List Char
  searchKeywords : List (List Char)
  results : List ToolEntry
  totalFound : Nat
deriving DecidableEq, Repr

structure GetSectionOut where
  id : List Char
  title : List Char
  content : List Char
  level : Nat
  type : List Char
  parent : Option (List Char)
  children : List (List Char)
deriving DecidableEq, Repr

structure OverviewOut where
  totalSections : Nat
  mainTopics : List (List Char)
deriving DecidableEq, Repr

/-- `executeSearchSections`: a missing or non-string `query` flows into
`extractKeywords`, whose falsy guard yields no keywords, so it is modelled as
the empty string.  The `Math.min(maxResults, 3)` cap and the default
`maxResults = 3` are as in the source. -/
def executeSearchSections (data : DocumentData) (input : ToolInput) :
    Except (List Char) SearchSectionsOut :=
  let query :=
    match input.query with
    | some (.vstr s) => s
    | _ => []
  let maxResults := input.maxResults.getD 3
  let searchResults := searchSections data query (min maxResults 3)
  .ok { query := query, results := searchResults.map (toEntry 300),
        totalFound := searchResults.length }

/-- The call `topic.toLowerCase()` (and `impactType.toLowerCase()`): throws a
TypeError when the value is `undefined` or not a string.  The message text is
the engine's; only its occurrence matters. -/
def jsToLowerCase : Option JSVal → Except (List Char) (List Char)
  | none => .error "Cannot read properties of undefined (reading toLowerCase)".toList
  | some (.vnum _) => .error "toLowerCase is not a function".toList
  | some (.vstr s) => .ok (s.map Char.toLower)

/-- The `topicKeywords` table of `executeSearchByTopic`. -/
def topicKeywords : List (List Char × List (List Char)) :=
  [("tax", ["tax", "taxes", "taxation", "income", "deduction", "credit", "revenue", "IRS"]),
   ("defense", ["defense", "military", "armed forces", "national security", "pentagon", "veteran"]),
   ("agriculture", ["agriculture", "farm", "farming", "food", "SNAP", "nutrition", "USDA", "crop"]),
   ("energy", ["energy", "oil", "gas", "petroleum", "renewable", "solar", "wind", "coal"]),
   ("environment", ["environment", "climate", "EPA", "pollution", "emission", "green", "conservation"]),
   ("banking", ["banking", "finance", "financial", "bank", "credit", "loan", "mortgage"]),
   ("healthcare", ["health", "medical", "medicare", "medicaid", "hospital", "insurance", "doctor"]),
   ("education", ["education", "school", "student", "teacher", "university", "college", "learning"]),
   ("immigration", ["immigration", "immigrant", "border", "visa", "citizenship", "deportation"]),
   ("housing", ["housing", "home", "rent", "mortgage", "affordable housing", "HUD"])].map
    (fun p => (p.1.toList, p.2.map String.toList))

/-- `executeSearchByTopic`: lower-cases the topic (throwing on a missing or
non-string value), expands it through `topicKeywords` with the literal topic
as fallback, joins with " OR ", and searches with the capped limit. -/
def executeSearchByTopic (data : DocumentData) (input : ToolInput) :
    Except (List Char) SearchByTopicOut :=
  match jsToLowerCase input.topic with
  | .error e => .error e
  | .ok lowered =>
    let original :=
      match input.topic with
      | some (.vstr s) => s
      | _ => []
    let keywords :=
      match topicKeywords.lookup lowered with
      | some ks => ks
      | none => [original]
    let searchQuery := List.intercalate " OR ".toList keywords
    let maxResults := input.maxResults.getD 3
    let searchResults := searchSections data searchQuery (min maxResults 3)
    .ok { topic := original, searchKeywords := keywords,
          results := searchResults.map (toEntry 250),
          totalFound := searchResults.length }

/-- The `impactKeywords` table of `executeSearchFinancialImpact`. -/
def impactKeywords : List (List Char × List (List Char)) :=
  [("appropriation", ["appropriation", "appropriated", "appropriates", "funds available"]),
   ("funding", ["funding", "funded", "fund", "allocated", "allocation"]),
   ("cost", ["cost", "costs", "expense", "expenditure", "budget"]),
   ("budget", ["budget", "budgeted", "budgetary", "fiscal"]),
   ("spending", ["spending", "spend", "expenditure", "outlay"]),
   ("revenue", ["revenue", "income", "receipts", "collections"]),
   ("tax_change", ["tax increase", "tax decrease", "tax rate", "tax reform",
     "tax credit", "tax deduction"])].map
    (fun p => (p.1.toList, p.2.map String.toList))

/-- `executeSearchFinancialImpact`: same pattern as the topic search over the
impact table. -/
def executeSearchFinancialImpact (data : DocumentData) (input : ToolInput) :
    Except (List Char) FinancialImpactOut :=
  match jsToLowerCase input.impactType with
  | .error e => .error e
  | .ok lowered =>
    let original :=
      match input.impactType with
      | some (.vstr s) => s
      | _ => []
    let keywords :=
      match impactKeywords.lookup lowered with
      | some ks => ks
      | none => [original]
    let searchQuery := List.intercalate " OR ".toList keywords
    let maxResults := input.maxResults.getD 3
    let searchResults := searchSections data searchQuery (min maxResults 3)
    .ok { impactType := original, searchKeywords := keywords,
          results := searchResults.map (toEntry 250),
          totalFound := searchResults.length }

/-- `executeGetSectionById`: a missing section throws (`not found`); the
source reads `section.parent`, a field no Section ever carries, hence
`none`. -/
def executeGetSectionById (data : DocumentData) (input : ToolInput) :
    Except (List Char) GetSectionOut :=
  let sectionId :=
    match input.sectionId with
    | some (.vstr s) => some s
    | _ => none
  match sectionId.bind (fun sid => data.sections.lookup sid) with
  | none => .error "Section not found".toList
  | some s =>
    .ok { id := s.id, title := s.title, content := truncateText s.fullText 600,
          level := s.level, type := s.type, parent := none,
          children := s.children }

/-- `executeGetBillOverview` (constant fields elided to the counted and listed
ones). -/
def executeGetBillOverview (data : DocumentData) (_input : ToolInput) :
    Except (List Char) OverviewOut :=
  .ok { totalSections := data.sections.length,
        mainTopics :=
          ["Agriculture and Food Policy", "Defense and National Security",
           "Banking and Financial Services", "Energy and Natural Resources",
           "Environmental Protection", "Tax Policy and Revenue"].map String.toList }

/-- A successful tool outcome (the `default` switch case returns
`{error: Unknown tool}` through the SUCCESS path, without throwing). -/
inductive ToolOut where
  | searchSections (o : SearchSectionsOut)
  | getSection (o : GetSectionOut)
  | byTopic (o : SearchByTopicOut)
  | overview (o : OverviewOut)
  | financial (o : FinancialImpactOut)
  | unknownTool (name : List Char)
deriving DecidableEq, Repr

/-- The `switch (toolCall.name)` dispatch of `executeToolCalls`. -/
def dispatchTool (data : DocumentData) (name : List Char) (input : ToolInput) :
    Except (List Char) ToolOut :=
  if name = "search_sections".toList then
    (executeSearchSections data input).map ToolOut.searchSections
  else if name = "get_section_by_id".toList then
    (executeGetSectionById data input).map ToolOut.getSection
  else if name = "search_by_topic".toList then
    (executeSearchByTopic data input).map ToolOut.byTopic
  else if name = "get_bill_overview".toList then
    (executeGetBillOverview data input).map ToolOut.overview
  else if name = "search_financial_impact".toList then
    (executeSearchFinancialImpact data input).map ToolOut.financial
  else .ok (.unknownTool name)

/-- The serialized `content` of a tool_result block: either
`JSON.stringify(result)` or the catch branch's `JSON.stringify({error})`. -/
inductive Payload where
  | result (o : ToolOut)
  | errorPayload (msg : List Char)
deriving DecidableEq, Repr

structure ToolCallRec where
  id : List Char
  name : List Char
  input : ToolInput
deriving DecidableEq, Repr

structure ToolResult where
  tool_use_id : List Char
  content : Payload
deriving DecidableEq, Repr

/-- One block of an assistant reply's `content` array. -/
inductive ContentItem where
  | text (s : List Char)
  | toolUse (id : List Char) (name : List Char) (input : ToolInput)
deriving DecidableEq, Repr

/-- `response.content.filter(item => item.type === 'tool_use')`. -/
def toolUsesOf (content : List ContentItem) : List ToolCallRec :=
  content.filterMap
    (fun item =>
      match item with
      | .toolUse i n inp => some ⟨i, n, inp⟩
      | _ => none)

/-- The try/catch body for one invocation: a thrown error becomes an error
payload under the same `tool_use_id`. -/
def execOne (data : DocumentData) (c : ToolCallRec) : ToolResult :=
  match dispatchTool data c.name c.input with
  | .ok o => ⟨c.id, .result o⟩
  | .error e => ⟨c.id, .errorPayload e⟩

/-- `executeToolCalls` from `llmService.js`: one result per invocation, then
the fallback loop appending a placeholder for any invocation id missing from
the result ids (provably dead). -/
def executeToolCalls (data : DocumentData) (content : List ContentItem) :
    List ToolResult :=
  ((toolUsesOf content).map (execOne data)) ++
    ((((toolUsesOf content).map ToolCallRec.id).filter
        (fun i =>
          !((((toolUsesOf content).map (execOne data)).map
            ToolResult.tool_use_id).contains i))).map
      (fun i => ⟨i, .errorPayload "Tool execution failed".toList⟩))

/-- `content.some(item => item.type === 'tool_use')`. -/
def hasToolUse (content : List ContentItem) : Bool :=
  content.any
    (fun item =>
      match item with
      | .toolUse _ _ _ => true
      | _ => false)

end LLMService

namespace LLMService

open DocumentParser

/-- A conversation turn as the orchestrator constructs it: the initial user
prompt, an assistant reply (its content blocks), a user turn carrying tool
results, or the forced-final user instruction. -/
inductive Message where
  | userText (s : List Char)
  | assistantMsg (content : List ContentItem)
  | userResults (results : List ToolResult)
  | userForced (s : List Char)
deriving DecidableEq, Repr

/-- The forced-final instruction text (braces of the JSON template written as
escapes). -/
def forcedPromptText : List Char :=
  ("Based on all the information gathered from the tools above, please provide your final JSON response using this exact format: \x7b\x22answer\x22: \x22comprehensive answer\x22, \x22sections\x22: [\x22relevant section IDs\x22], \x22keyPoints\x22: [\x22key takeaways\x22], \x22implications\x22: \x22what this means\x22, \x22confidence\x22: \x22high/medium/low\x22\x7d").toList

structure OrchResult where
  finalResponse : List ContentItem
  history : List Message
  loopRounds : Nat
  toolExecs : Nat
  forcedFinal : Bool
deriving Repr

/-- The loop of `handleToolCallsRecursively`, with the scripted external model
`script` supplying the reply to the `k`-th API call made inside the handler,
and `remaining = maxIterations - iterationCount`.  While the current reply
requests tools and budget remains: execute the calls, append the
assistant/tool-result turn pair, request the next reply.  On exhaustion with
tools still requested: execute the pending calls, append the pair and the
forced-final instruction, make exactly one more call.  Otherwise return the
current reply. -/
def orchLoop (data : DocumentData) (script : Nat → List ContentItem) :
    Nat → Nat → List ContentItem → List Message → Nat → Nat → OrchResult
  | callIdx, remaining, current, history, rounds, execs =>
    if hasToolUse current then
      match remaining with
      | 0 =>
        { finalResponse := script callIdx
          history := history ++
            [.assistantMsg current, .userResults (executeToolCalls data current),
             .userForced forcedPromptText]
          loopRounds := rounds
          toolExecs := execs + 1
          forcedFinal := true }
      | r + 1 =>
        orchLoop data script (callIdx + 1) r (script callIdx)
          (history ++
            [.assistantMsg current, .userResults (executeToolCalls data current)])
          (rounds + 1) (execs + 1)
    else
      { finalResponse := current, history := history, loopRounds := rounds,
        toolExecs := execs, forcedFinal := false }

/-- `handleToolCallsRecursively` (the source hard-codes `maxIterations = 3`;
the bound is a parameter here so the specification's `max iterations = 2`
scenario is an instance). -/
def handleToolCallsRecursively (data : DocumentData) (script : Nat → List ContentItem)
    (maxIterations : Nat) (initialResponse : List ContentItem)
    (initHistory : List Message) : OrchResult :=
  orchLoop data script 0 maxIterations initialResponse initHistory 0 0

def toolUseIds : Message → List (List Char)
  | .assistantMsg c => (toolUsesOf c).map ToolCallRec.id
  | _ => []

def resultIds : Message → List (List Char)
  | .userResults rs => rs.map ToolResult.tool_use_id
  | _ => []

def isAssistantWithTools : Message → Bool
  | .assistantMsg c => hasToolUse c
  | _ => false

/-- The pairing invariant over a conversation: every assistant turn carrying
tool invocations is immediately followed by a turn whose tool-result ids are
exactly (in order) the invocation ids. -/
def WellPairedB : List Message → Bool
  | [] => true
  | [m] => !isAssistantWithTools m
  | m :: m2 :: rest =>
    (if isAssistantWithTools m then decide (resultIds m2 = toolUseIds m) else true) &&
      WellPairedB (m2 :: rest)

/-- The assistant/tool-result pairs appended by `r` loop rounds starting from
reply `current` at call index `callIdx`. -/
def roundsHist (data : DocumentData) (script : Nat → List ContentItem) :
    Nat → Nat → List ContentItem → List Message
  | _, 0, _ => []
  | callIdx, r + 1, current =>
    [.assistantMsg current, .userResults (executeToolCalls data current)] ++
      roundsHist data script (callIdx + 1) r (script callIdx)

/-- The reply that is still pending when the budget runs out. -/
def lastResp (script : Nat → List ContentItem) :
    Nat → Nat → List ContentItem → List ContentItem
  | _, 0, current => current
  | callIdx, r + 1, _ => lastResp script (callIdx + 1) r (script callIdx)

end LLMService

namespace LLMService

open DocumentParser

theorem execOne_id (data : DocumentData) (c : ToolCallRec) :
    (execOne data c).tool_use_id = c.id := by
  unfold execOne
  cases dispatchTool data c.name c.input <;> rfl

theorem map_execOne_ids (data : DocumentData) (calls : List ToolCallRec) :
    (calls.map (execOne data)).map ToolResult.tool_use_id = calls.map ToolCallRec.id := by
  induction calls with
  | nil => rfl
  | cons c rest ih => simp [execOne_id, ih]

/-- The fallback loop never fires: the result list is exactly the per-call
map. -/
theorem executeToolCalls_base (data : DocumentData) (content : List ContentItem) :
    executeToolCalls data content = (toolUsesOf content).map (execOne data) := by
  unfold executeToolCalls
  have h : ((toolUsesOf content).map ToolCallRec.id).filter
      (fun i =>
        !((((toolUsesOf content).map (execOne data)).map
          ToolResult.tool_use_id).contains i)) = [] := by
    rw [map_execOne_ids]
    rw [List.filter_eq_nil_iff]
    intro i hi
    have hc : ((toolUsesOf content).map ToolCallRec.id).contains i = true :=
      List.elem_eq_true_of_mem hi
    rw [hc]
    simp
  rw [h]
  simp

theorem executeToolCalls_ids (data : DocumentData) (content : List ContentItem) :
    (executeToolCalls data content).map ToolResult.tool_use_id =
      (toolUsesOf content).map ToolCallRec.id := by
  rw [executeToolCalls_base, map_execOne_ids]

/-- Claim C1: `executeToolCalls` emits exactly one tool-result entry per tool
invocation, in invocation order, so the id sequence (hence the id set) of the
tool-result turn that the orchestrator appends equals that of the preceding
assistant reply's invocations — never a subset or superset — and every
invocation whose execution failed is answered by an error payload under its
id. -/
theorem executeToolCalls_pairing (data : DocumentData) (content : List ContentItem) :
    (executeToolCalls data content).map ToolResult.tool_use_id =
        (toolUsesOf content).map ToolCallRec.id ∧
      ((executeToolCalls data content).map ToolResult.tool_use_id).toFinset =
        ((toolUsesOf content).map ToolCallRec.id).toFinset ∧
      (executeToolCalls data content).length = (toolUsesOf content).length ∧
      (∀ c ∈ toolUsesOf content, ∀ e, dispatchTool data c.name c.input = .error e →
        ToolResult.mk c.id (.errorPayload e) ∈ executeToolCalls data content) := by
  have hbase := executeToolCalls_base data content
  refine ⟨executeToolCalls_ids data content, ?_, ?_, ?_⟩
  · rw [executeToolCalls_ids]
  · rw [hbase, List.length_map]
  · intro c hc e he
    rw [hbase]
    have hx : execOne data c = ⟨c.id, .errorPayload e⟩ := by
      unfold execOne
      rw [he]
    rw [← hx]
    exact List.mem_map_of_mem _ hc

def demoErrInput : ToolInput := { topic := some (.vnum 5) }

/-- Witness for claim C1 at a failing invocation (`topic` a number, so
`topic.toLowerCase()` throws inside the executor). -/
theorem executeToolCalls_pairing_witness :
    ((⟨"t1".toList, "search_by_topic".toList, demoErrInput⟩ : ToolCallRec) ∈
        toolUsesOf [ContentItem.toolUse "t1".toList "search_by_topic".toList demoErrInput]) ∧
      ToolResult.mk "t1".toList
          (Payload.errorPayload "toLowerCase is not a function".toList) ∈
        executeToolCalls demoData
          [ContentItem.toolUse "t1".toList "search_by_topic".toList demoErrInput] :=
  ⟨by decide,
    (executeToolCalls_pairing demoData
        [ContentItem.toolUse "t1".toList "search_by_topic".toList demoErrInput]).2.2.2
      ⟨"t1".toList, "search_by_topic".toList, demoErrInput⟩ (by decide)
      "toLowerCase is not a function".toList rfl⟩

theorem searchSections_length_le (data : DocumentData) (query : List Char) (e : Int)
    (he : 0 ≤ e) : (DocumentParser.searchSections data query e).length ≤ e.toNat := by
  unfold DocumentParser.searchSections jsSliceTo
  rw [if_neg (by omega)]
  simpa using List.length_take_le _ _

/-- Claim C7 (amended): for every caller-supplied NON-NEGATIVE `maxResults`
value (and when it is absent), each of the three search tool operations
returns at most the 3-entry cap; a negative `maxResults` passes through
`Math.min` into `slice(0, negative)` and can defeat the cap (see the
counterexample). -/
theorem executors_result_cap (data : DocumentData) (input : ToolInput)
    (hmr : ∀ v ∈ input.maxResults, 0 ≤ v) :
    (∀ o, executeSearchSections data input = .ok o → o.results.length ≤ 3) ∧
      (∀ o, executeSearchByTopic data input = .ok o → o.results.length ≤ 3) ∧
      (∀ o, executeSearchFinancialImpact data input = .ok o → o.results.length ≤ 3) := by
  have h0 : 0 ≤ min (input.maxResults.getD 3) 3 := by
    cases hm : input.maxResults with
    | none => simp
    | some v =>
      have := hmr v (by simp [hm])
      simp only [Option.getD_some]
      omega
  have h3 : (min (input.maxResults.getD 3) 3).toNat ≤ 3 := by
    cases hm : input.maxResults with
    | none => simp
    | some v =>
      simp only [Option.getD_some]
      omega
  refine ⟨?_, ?_, ?_⟩
  · intro o ho
    unfold executeSearchSections at ho
    cases Except.ok.inj ho
    simp only [List.length_map]
    exact le_trans (searchSections_length_le data _ _ h0) h3
  · intro o ho
    unfold executeSearchByTopic at ho
    cases hj : jsToLowerCase input.topic with
    | error e =>
      rw [hj] at ho
      exact absurd ho (by simp)
    | ok lowered =>
      rw [hj] at ho
      cases Except.ok.inj ho
      simp only [List.length_map]
      exact le_trans (searchSections_length_le data _ _ h0) h3
  · intro o ho
    unfold executeSearchFinancialImpact at ho
    cases hj : jsToLowerCase input.impactType with
    | error e =>
      rw [hj] at ho
      exact absurd ho (by simp)
    | ok lowered =>
      rw [hj] at ho
      cases Except.ok.inj ho
      simp only [List.length_map]
      exact le_trans (searchSections_length_le data _ _ h0) h3

def mkFarmSec (i : List Char) : Sec :=
  { id := i, type := "section".toList, title := "farm subsidy program".toList,
    content := "farm subsidy program".toList,
    fullText := "farm subsidy program".toList, level := 1, parentId := none,
    children := [] }

def demoSections5 : SecMap :=
  [("s1".toList, mkFarmSec "s1".toList), ("s2".toList, mkFarmSec "s2".toList),
   ("s3".toList, mkFarmSec "s3".toList), ("s4".toList, mkFarmSec "s4".toList),
   ("s5".toList, mkFarmSec "s5".toList)]

/-- A five-section snapshot, every section matching "farm". -/
def demoData5 : DocumentData :=
  { sections := demoSections5, searchIndex := buildSearchIndex demoSections5 }

def capBreakInput : ToolInput :=
  { query := some (.vstr "farm".toList), maxResults := some (-1) }

/-- Claim C7 counterexample: with five matching sections and caller-supplied
maxResults = -1, `Math.min(-1, 3) = -1` reaches `slice(0, -1)` and the
keyword-search operation returns 4 results — more than the 3-entry cap. -/
theorem executeSearchSections_cap_counterexample :
    (executeSearchSections demoData5 capBreakInput).map (fun o => o.results.length) =
        Except.ok 4 ∧ 3 < 4 :=
  ⟨rfl, by omega⟩

def c7Input : ToolInput :=
  { query := some (.vstr "farm".toList), maxResults := some 50 }

/-- The concrete payload the keyword search returns on `c7Input` (the error
arm is unreachable there). -/
def c7Out : SearchSectionsOut :=
  match executeSearchSections demoData5 c7Input with
  | .ok o => o
  | .error _ => { query := [], results := [], totalFound := 0 }

/-- Witness for claim C7's amended theorem: on five matching sections with a
non-negative maxResults = 50 the keyword search returns at most 3 results. -/
theorem executors_result_cap_witness : c7Out.results.length ≤ 3 :=
  (executors_result_cap demoData5 c7Input
    (fun v hv => by simp [c7Input] at hv; omega)).1 c7Out rfl

def weatherInput : ToolInput := { topic := some (.vstr "weather".toList) }

/-- Claim C5 counterexample: a topic value outside the schema's enumerated
allowed set does NOT fail — `executeSearchByTopic` succeeds, treating the
literal value as the sole search keyword; no InvalidArgumentsError exists
anywhere in the code. -/
theorem invalidArguments_counterexample :
    (executeSearchByTopic DocumentParser.demoData weatherInput).isOk = true ∧
      (executeSearchByTopic DocumentParser.demoData weatherInput).map
          SearchByTopicOut.searchKeywords = Except.ok ["weather".toList] :=
  ⟨rfl, rfl⟩

/-- Claim C5 (amended): the executor performs no schema validation and defines
no InvalidArgumentsError: an enum-violating value is accepted as a literal
keyword (counterexample), while a missing or non-string required argument
makes the executor throw a TypeError, which `executeToolCalls` catches and
reports as a tool-result error payload under the invocation's id, keeping one
result per invocation — the query is not aborted. -/
theorem toolError_reported_as_payload (data : DocumentData) (callId : List Char)
    (input : ToolInput) (rest : List ContentItem) (e : List Char)
    (hd : dispatchTool data "search_by_topic".toList input = .error e) :
    ToolResult.mk callId (.errorPayload e) ∈
        executeToolCalls data
          (ContentItem.toolUse callId "search_by_topic".toList input :: rest) ∧
      (executeToolCalls data
          (ContentItem.toolUse callId "search_by_topic".toList input :: rest)).length =
        (toolUsesOf
          (ContentItem.toolUse callId "search_by_topic".toList input :: rest)).length := by
  have hbase := executeToolCalls_base data
    (ContentItem.toolUse callId "search_by_topic".toList input :: rest)
  constructor
  · rw [hbase]
    have h1 : toolUsesOf (ContentItem.toolUse callId "search_by_topic".toList input :: rest) =
        ⟨callId, "search_by_topic".toList, input⟩ :: toolUsesOf rest := rfl
    rw [h1, List.map_cons]
    have hx : execOne data ⟨callId, "search_by_topic".toList, input⟩ =
        ⟨callId, .errorPayload e⟩ := by
      unfold execOne
      rw [hd]
    rw [hx]
    exact List.mem_cons_self _ _
  · rw [hbase, List.length_map]

/-- Witness for claim C5's amended theorem: a missing `topic` argument. -/
theorem toolError_reported_as_payload_witness :
    ToolResult.mk "t9".toList
        (Payload.errorPayload
          "Cannot read properties of undefined (reading toLowerCase)".toList) ∈
      executeToolCalls DocumentParser.demoData
        [ContentItem.toolUse "t9".toList "search_by_topic".toList {}] :=
  (toolError_reported_as_payload DocumentParser.demoData "t9".toList {} []
    "Cannot read properties of undefined (reading toLowerCase)".toList rfl).1

end LLMService

namespace LLMService

open DocumentParser

theorem orchLoop_exhausts (data : DocumentData) (script : Nat → List ContentItem)
    (hAll : ∀ k, hasToolUse (script k) = true) :
    ∀ (remaining callIdx : Nat) (current : List ContentItem) (history : List Message)
      (rounds execs : Nat), hasToolUse current = true →
      orchLoop data script callIdx remaining current history rounds execs =
        { finalResponse := script (callIdx + remaining)
          history := history ++ roundsHist data script callIdx remaining current ++
            [.assistantMsg (lastResp script callIdx remaining current),
             .userResults (executeToolCalls data (lastResp script callIdx remaining current)),
             .userForced forcedPromptText]
          loopRounds := rounds + remaining
          toolExecs := execs + remaining + 1
          forcedFinal := true } := by
  intro remaining
  induction remaining with
  | zero =>
    intro callIdx current history rounds execs hcur
    rw [orchLoop, if_pos hcur]
    simp [roundsHist, lastResp]
  | succ r ih =>
    intro callIdx current history rounds execs hcur
    rw [orchLoop, if_pos hcur]
    rw [ih (callIdx + 1) (script callIdx) _ (rounds + 1) (execs + 1) (hAll callIdx)]
    have harith : callIdx + 1 + r = callIdx + (r + 1) := by omega
    rw [harith]
    rw [OrchResult.mk.injEq]
    refine ⟨rfl, ?_, by omega, by omega, rfl⟩
    rw [roundsHist]
    simp [List.append_assoc, lastResp]

theorem wellPaired_cons_skip (m : Message) (rest : List Message)
    (hm : isAssistantWithTools m = false) :
    WellPairedB (m :: rest) = WellPairedB rest := by
  cases rest with
  | nil => simp [WellPairedB, hm]
  | cons m2 r =>
    rw [WellPairedB, hm]
    simp

theorem wellPaired_pair_cons (data : DocumentData) (c : List ContentItem)
    (tail : List Message) (htail : WellPairedB tail = true) :
    WellPairedB (.assistantMsg c :: .userResults (executeToolCalls data c) :: tail) =
      true := by
  have htail2 : WellPairedB (Message.userResults (executeToolCalls data c) :: tail) = true := by
    rw [wellPaired_cons_skip (Message.userResults (executeToolCalls data c)) tail rfl]
    exact htail
  have hids : resultIds (.userResults (executeToolCalls data c)) =
      toolUseIds (.assistantMsg c) := by
    simp only [resultIds, toolUseIds]
    exact executeToolCalls_ids data c
  rw [WellPairedB, hids]
  simp [htail2]

theorem wellPaired_roundsHist (data : DocumentData) (script : Nat → List ContentItem)
    (hAll : ∀ k, hasToolUse (script k) = true) :
    ∀ (r callIdx : Nat) (current : List ContentItem), hasToolUse current = true →
      ∀ (tail : List Message), WellPairedB tail = true →
      WellPairedB (roundsHist data script callIdx r current ++ tail) = true := by
  intro r
  induction r with
  | zero =>
    intro callIdx current hcur tail htail
    simpa [roundsHist] using htail
  | succ n ih =>
    intro callIdx current hcur tail htail
    rw [roundsHist]
    simp only [List.cons_append, List.nil_append, List.append_assoc]
    exact wellPaired_pair_cons data current _
      (ih (callIdx + 1) (script callIdx) (hAll callIdx) tail htail)

theorem wellPaired_final_seg (data : DocumentData) (lr : List ContentItem) :
    WellPairedB [.assistantMsg lr, .userResults (executeToolCalls data lr),
      .userForced forcedPromptText] = true := by
  exact wellPaired_pair_cons data lr [Message.userForced forcedPromptText] rfl

/-- Claim C2: for every run whose iteration budget is exhausted while the model
still requests tools (scripted always-tool model), the orchestrator executes
the pending tool calls and appends their results (the history provably ends
with that assistant/tool-result pair), then issues exactly one forced final
round (`forcedFinal`, one extra tool execution and one final model call);
pairing holds across the whole history; and the loop performs exactly
`maxIterations` tool-executing rounds before it — so with max iterations = 2,
exactly 2 tool-executing rounds precede the single forced final round. -/
theorem handleToolCalls_budget_exhaustion (data : DocumentData)
    (script : Nat → List ContentItem) (q : List Char) (maxIterations : Nat)
    (init : List ContentItem) (hAll : ∀ k, hasToolUse (script k) = true)
    (hinit : hasToolUse init = true) :
    (handleToolCallsRecursively data script maxIterations init
        [.userText q]).loopRounds = maxIterations ∧
      (handleToolCallsRecursively data script maxIterations init
        [.userText q]).forcedFinal = true ∧
      (handleToolCallsRecursively data script maxIterations init
        [.userText q]).toolExecs = maxIterations + 1 ∧
      (handleToolCallsRecursively data script maxIterations init
        [.userText q]).finalResponse = script maxIterations ∧
      (handleToolCallsRecursively data script maxIterations init
        [.userText q]).history =
        Message.userText q :: (roundsHist data script 0 maxIterations init ++
          [.assistantMsg (lastResp script 0 maxIterations init),
           .userResults (executeToolCalls data (lastResp script 0 maxIterations init)),
           .userForced forcedPromptText]) ∧
      WellPairedB (handleToolCallsRecursively data script maxIterations init
        [.userText q]).history = true := by
  have hrun := orchLoop_exhausts data script hAll maxIterations 0 init
    [.userText q] 0 0 hinit
  unfold handleToolCallsRecursively
  rw [hrun]
  refine ⟨by simp, rfl, by simp, by simp, ?_, ?_⟩
  · simp [List.append_assoc]
  · have hwp : WellPairedB (roundsHist data script 0 maxIterations init ++
        [.assistantMsg (lastResp script 0 maxIterations init),
         .userResults (executeToolCalls data (lastResp script 0 maxIterations init)),
         .userForced forcedPromptText]) = true :=
      wellPaired_roundsHist data script hAll maxIterations 0 init hinit _
        (wellPaired_final_seg data (lastResp script 0 maxIterations init))
    simp only [List.cons_append, List.nil_append, List.append_assoc]
    rw [wellPaired_cons_skip (Message.userText q) _ rfl]
    simpa [List.append_assoc] using hwp

def demoToolContent : List ContentItem :=
  [.toolUse "t1".toList "search_sections".toList { query := some (.vstr "farm".toList) }]

def demoScript : Nat → List ContentItem := fun _ => demoToolContent

/-- Witness for claim C2: max iterations = 2 with an always-tool-requesting
scripted model gives exactly 2 loop rounds, one forced final round, and 3
tool executions. -/
theorem handleToolCalls_budget_exhaustion_witness :
    (handleToolCallsRecursively demoData demoScript 2 demoToolContent
        [Message.userText "question".toList]).loopRounds = 2 ∧
      (handleToolCallsRecursively demoData demoScript 2 demoToolContent
        [Message.userText "question".toList]).forcedFinal = true ∧
      (handleToolCallsRecursively demoData demoScript 2 demoToolContent
        [Message.userText "question".toList]).toolExecs = 3 :=
  ⟨(handleToolCalls_budget_exhaustion demoData demoScript "question".toList 2
      demoToolContent (fun _ => rfl) rfl).1,
    (handleToolCalls_budget_exhaustion demoData demoScript "question".toList 2
      demoToolContent (fun _ => rfl) rfl).2.1,
    (handleToolCalls_budget_exhaustion demoData demoScript "question".toList 2
      demoToolContent (fun _ => rfl) rfl).2.2.1⟩

end LLMService

namespace QueryProcessor

open TextUtils

/-- A JavaScript value arriving at the `validateQuery` boundary
(`req.body.query` may be any JSON value or absent). -/
inductive JSV where
  | vstr (s : List Char)
  | vnum (n : Int)
  | vbool (b : Bool)
  | vnull
  | vundefined
  | vobj
deriving DecidableEq, Repr

/-- JS truthiness. -/
def truthy : JSV → Bool
  | .vstr s => !s.isEmpty
  | .vnum n => decide (n ≠ 0)
  | .vbool b => b
  | .vnull => false
  | .vundefined => false
  | .vobj => true

def isString : JSV → Bool
  | .vstr _ => true
  | _ => false

structure ValidationResult where
  valid : Bool
  errors : List (List Char)
deriving DecidableEq, Repr

/-- The `errors` array after all four checks (the third check's contribution
`e3` is passed in because computing it can throw). -/
def queryErrors (query : JSV) (e3 : List (List Char)) : List (List Char) :=
  (if truthy query then [] else ["Query is required".toList]) ++
    (if isString query then [] else ["Query must be a string".toList]) ++ e3 ++
    (if truthy query then
      match query with
      | .vstr s =>
        if 1000 < s.length then ["Query is too long (maximum 1000 characters)".toList]
        else []
      | _ => []
    else [])

/-- `validateQuery` from `queryProcessor.js`.  The third check evaluates
`query.trim()` on every truthy value, so a truthy non-string throws a
TypeError (`Except.error`); the fourth check reads `query.length`, which for
a non-string is `undefined` and compares false (that branch is unreachable
because the third check throws first). -/
def validateQuery (query : JSV) : Except (List Char) ValidationResult :=
  match (if truthy query then
      match query with
      | .vstr s =>
        Except.ok (if (jsTrim s).length = 0 then ["Query cannot be empty".toList] else [])
      | _ => Except.error "query.trim is not a function".toList
    else Except.ok []) with
  | .error e => .error e
  | .ok e3 =>
    .ok { valid := (queryErrors query e3).isEmpty, errors := queryErrors query e3 }

/-- Claim C10 counterexample: `validateQuery(42)` — a truthy non-string —
throws a TypeError at `query.trim()`, so the validator does not "never
throw". -/
theorem validateQuery_throws_counterexample :
    validateQuery (.vnum 42) = Except.error "query.trim is not a function".toList := rfl

/-- The third check's contribution for a string input. -/
def e3Of (s : List Char) : List (List Char) :=
  if truthy (.vstr s) then
    (if (jsTrim s).length = 0 then ["Query cannot be empty".toList] else [])
  else []

theorem validateQuery_vstr (s : List Char) :
    validateQuery (.vstr s) =
      .ok { valid := (queryErrors (.vstr s) (e3Of s)).isEmpty,
            errors := queryErrors (.vstr s) (e3Of s) } := by
  unfold validateQuery e3Of
  by_cases htr : truthy (.vstr s) <;> simp [htr]

/-- Claim C10 (amended): whenever `validateQuery` returns, it accepts exactly
the strings that are non-empty after trimming and of raw length at most 1000,
and every rejection carries a non-empty error list; but the validator does
not never-throw: it throws (a TypeError at `query.trim()`) exactly on truthy
non-string inputs. -/
theorem validateQuery_spec (q : JSV) :
    (∀ r, validateQuery q = .ok r →
        ((r.valid = true ↔
            ∃ s, q = .vstr s ∧ jsTrim s ≠ [] ∧ s.length ≤ 1000) ∧
          (r.valid = false → r.errors ≠ []))) ∧
      ((validateQuery q).isOk = false ↔ (truthy q = true ∧ isString q = false)) := by
  have hne : ∀ (E : List (List Char)), E.isEmpty = false → E ≠ [] := by
    intro E hE hnil
    rw [hnil] at hE
    simp at hE
  cases q with
  | vstr s =>
    refine ⟨?_, ?_⟩
    · intro r hr
      rw [validateQuery_vstr] at hr
      cases Except.ok.inj hr
      refine ⟨?_, fun hv => hne _ hv⟩
      by_cases hs : s.isEmpty
      · have hs0 : s = [] := by simpa using hs
        subst hs0
        simp [queryErrors, e3Of, truthy, isString, jsTrim]
      · have htr : truthy (.vstr s) = true := by simp [truthy, hs]
        by_cases ht : (jsTrim s).length = 0
        · have hkw : jsTrim s = [] := List.length_eq_zero.mp ht
          simp [queryErrors, e3Of, htr, ht, hkw, isString]
        · by_cases hl : 1000 < s.length
          · simp only [queryErrors, e3Of, htr, isString, if_true, if_neg ht, if_pos hl]
            simp only [List.append_nil, List.nil_append, List.isEmpty_cons]
            constructor
            · intro hv
              exact absurd hv (by decide)
            · rintro ⟨s2, hs2, _, hlen⟩
              cases hs2
              omega
          · simp only [queryErrors, e3Of, htr, isString, if_true, if_neg ht, if_neg hl]
            simp only [List.append_nil, List.nil_append, List.isEmpty_nil]
            constructor
            · intro _
              exact ⟨s, rfl, fun hc => ht (by simp [hc]), by omega⟩
            · intro _
              trivial
    · have hT : (validateQuery (.vstr s)).isOk = true := by
        rw [validateQuery_vstr]
        rfl
      rw [hT]
      constructor
      · intro h
        exact absurd h (by decide)
      · rintro ⟨_, hstr⟩
        simp [isString] at hstr
  | vnum n =>
    by_cases hn : n = 0
    · subst hn
      refine ⟨?_, by decide⟩
      intro r hr
      cases Except.ok.inj hr
      refine ⟨?_, fun hv => hne _ hv⟩
      simp [queryErrors, truthy, isString]
    · have htr : truthy (.vnum n) = true := by simp [truthy, hn]
      have herr : validateQuery (.vnum n) =
          Except.error "query.trim is not a function".toList := by
        unfold validateQuery
        rw [htr]
        simp
      refine ⟨?_, ?_⟩
      · intro r hr
        rw [herr] at hr
        cases hr
      · rw [herr]
        constructor
        · intro _
          exact ⟨htr, rfl⟩
        · intro _
          rfl
  | vbool b =>
    cases b
    · refine ⟨?_, by decide⟩
      intro r hr
      cases Except.ok.inj hr
      refine ⟨?_, fun hv => hne _ hv⟩
      simp [queryErrors, truthy, isString]
    · refine ⟨?_, by decide⟩
      intro r hr
      cases hr
  | vnull =>
    refine ⟨?_, by decide⟩
    intro r hr
    cases Except.ok.inj hr
    refine ⟨?_, fun hv => hne _ hv⟩
    simp [queryErrors, truthy, isString]
  | vundefined =>
    refine ⟨?_, by decide⟩
    intro r hr
    cases Except.ok.inj hr
    refine ⟨?_, fun hv => hne _ hv⟩
    simp [queryErrors, truthy, isString]
  | vobj =>
    refine ⟨?_, by decide⟩
    intro r hr
    cases hr

/-- Witness for claim C10's amended theorem at a concrete accepted string. -/
theorem validateQuery_spec_witness :
    (validateQuery (.vstr "what about farm subsidies".toList) =
        Except.ok { valid := true, errors := [] }) ∧
      ((validateQuery (.vstr "what about farm subsidies".toList)).isOk = false ↔
        (truthy (.vstr "what about farm subsidies".toList) = true ∧
          isString (.vstr "what about farm subsidies".toList) = false)) :=
  ⟨rfl, (validateQuery_spec (.vstr "what about farm subsidies".toList)).2⟩

end QueryProcessor

namespace LLMService

open TextUtils

/-- A JSON value as produced by the `JSON.parse` builtin.  Numbers keep their
literal text (`raw`); the only fact the normalizer ever needs about a number
is whether it is zero (JS falsiness). -/
inductive JVal where
  | jstr (s : List Char)
  | jnum (raw : List Char)
  | jbool (b : Bool)
  | jnull
  | jarr (items : List JVal)
  | jobj (fields : List (List Char × JVal))

mutual
def jvalBeq : JVal → JVal → Bool
  | .jstr a, .jstr b => a == b
  | .jnum a, .jnum b => a == b
  | .jbool a, .jbool b => a == b
  | .jnull, .jnull => true
  | .jarr xs, .jarr ys => jarrBeq xs ys
  | .jobj xs, .jobj ys => jobjBeq xs ys
  | _, _ => false
def jarrBeq : List JVal → List JVal → Bool
  | [], [] => true
  | x :: xs, y :: ys => jvalBeq x y && jarrBeq xs ys
  | _, _ => false
def jobjBeq : List (List Char × JVal) → List (List Char × JVal) → Bool
  | [], [] => true
  | (k1, v1) :: xs, (k2, v2) :: ys => k1 == k2 && jvalBeq v1 v2 && jobjBeq xs ys
  | _, _ => false
end

mutual
theorem jvalBeq_iff (a b : JVal) : jvalBeq a b = true ↔ a = b := by
  cases a with
  | jstr s =>
    cases b <;> simp [jvalBeq]
  | jnum r =>
    cases b <;> simp [jvalBeq]
  | jbool x =>
    cases b <;> simp [jvalBeq]
  | jnull =>
    cases b <;> simp [jvalBeq]
  | jarr xs =>
    cases b with
    | jarr ys =>
      simp only [jvalBeq, JVal.jarr.injEq]
      exact jarrBeq_iff xs ys
    | jstr s => simp [jvalBeq]
    | jnum r => simp [jvalBeq]
    | jbool x => simp [jvalBeq]
    | jnull => simp [jvalBeq]
    | jobj fs => simp [jvalBeq]
  | jobj xs =>
    cases b with
    | jobj ys =>
      simp only [jvalBeq, JVal.jobj.injEq]
      exact jobjBeq_iff xs ys
    | jstr s => simp [jvalBeq]
    | jnum r => simp [jvalBeq]
    | jbool x => simp [jvalBeq]
    | jnull => simp [jvalBeq]
    | jarr ys => simp [jvalBeq]
theorem jarrBeq_iff (xs ys : List JVal) : jarrBeq xs ys = true ↔ xs = ys := by
  cases xs with
  | nil => cases ys <;> simp [jarrBeq]
  | cons x xs2 =>
    cases ys with
    | nil => simp [jarrBeq]
    | cons y ys2 =>
      simp only [jarrBeq, Bool.and_eq_true, List.cons.injEq]
      rw [jvalBeq_iff x y, jarrBeq_iff xs2 ys2]
theorem jobjBeq_iff (xs ys : List (List Char × JVal)) :
    jobjBeq xs ys = true ↔ xs = ys := by
  cases xs with
  | nil => cases ys <;> simp [jobjBeq]
  | cons p xs2 =>
    obtain ⟨k1, v1⟩ := p
    cases ys with
    | nil => simp [jobjBeq]
    | cons q ys2 =>
      obtain ⟨k2, v2⟩ := q
      simp only [jobjBeq, Bool.and_eq_true, List.cons.injEq, Prod.mk.injEq,
        beq_iff_eq]
      rw [jvalBeq_iff v1 v2, jobjBeq_iff xs2 ys2]
end

instance : DecidableEq JVal := fun a b => decidable_of_iff _ (jvalBeq_iff a b)

def jsonWsCh (c : Char) : Bool := c = ' ' || c = '\t' || c = '\n' || c = '\r'

def skipJsonWs (l : List Char) : List Char := l.dropWhile jsonWsCh

def hexVal (c : Char) : Option Nat :=
  if '0' ≤ c ∧ c ≤ '9' then some (c.toNat - '0'.toNat)
  else if 'a' ≤ c ∧ c ≤ 'f' then some (c.toNat - 'a'.toNat + 10)
  else if 'A' ≤ c ∧ c ≤ 'F' then some (c.toNat - 'A'.toNat + 10)
  else none

/-- JSON string body after the opening quote: returns the decoded characters
and the rest after the closing quote. -/
def parseStringBody : Nat → List Char → Option (List Char × List Char)
  | 0, _ => none
  | _, [] => none
  | fuel + 1, c :: rest =>
    if c = '"' then some ([], rest)
    else if c = '\\' then
      match rest with
      | [] => none
      | e :: rest2 =>
        let decoded : Option (List Char × List Char) :=
          if e = 'n' then some (['\n'], rest2)
          else if e = 't' then some (['\t'], rest2)
          else if e = 'r' then some (['\r'], rest2)
          else if e = 'b' then some (['\x08'], rest2)
          else if e = 'f' then some (['\x0c'], rest2)
          else if e = '"' then some (['"'], rest2)
          else if e = '\\' then some (['\\'], rest2)
          else if e = '/' then some (['/'], rest2)
          else if e = 'u' then
            match rest2 with
            | a :: b :: c2 :: d :: rest3 =>
              match hexVal a, hexVal b, hexVal c2, hexVal d with
              | some ha, some hb, some hc, some hd =>
                some ([Char.ofNat (((ha * 16 + hb) * 16 + hc) * 16 + hd)], rest3)
              | _, _, _, _ => none
            | _ => none
          else none
        match decoded with
        | some (cs, rest3) =>
          match parseStringBody fuel rest3 with
          | some (s, r) => some (cs ++ s, r)
          | none => none
        | none => none
    else
      match parseStringBody fuel rest with
      | some (s, r) => some (c :: s, r)
      | none => none

/-- JSON number literal: `-? int frac? exp?`; returns the raw literal text. -/
def parseNumBody (l : List Char) : Option (List Char × List Char) :=
  let step1 : List Char × List Char :=
    match l with
    | '-' :: r => (['-'], r)
    | _ => ([], l)
  let ints := step1.2.takeWhile isDigitCh
  let l2 := step1.2.dropWhile isDigitCh
  if ints = [] then none
  else if 1 < ints.length ∧ ints.head? = some '0' then none
  else
    let step2 : Bool × List Char × List Char :=
      match l2 with
      | '.' :: r =>
        let ds := r.takeWhile isDigitCh
        if ds = [] then (false, [], l2)
        else (true, '.' :: ds, r.dropWhile isDigitCh)
      | _ => (true, [], l2)
    if !step2.1 then none
    else
      let step3 : Bool × List Char × List Char :=
        match step2.2.2 with
        | e :: r =>
          if e = 'e' ∨ e = 'E' then
            let signAndRest : List Char × List Char :=
              match r with
              | s :: r3 => if s = '+' ∨ s = '-' then ([s], r3) else ([], r)
              | [] => ([], r)
            let ds := signAndRest.2.takeWhile isDigitCh
            if ds = [] then (false, [], step2.2.2)
            else (true, e :: (signAndRest.1 ++ ds), signAndRest.2.dropWhile isDigitCh)
          else (true, [], step2.2.2)
        | [] => (true, [], step2.2.2)
      if !step3.1 then none
      else some (step1.1 ++ ints ++ step2.2.1 ++ step3.2.1, step3.2.2)

mutual
/-- Model of the `JSON.parse` builtin: parse one JSON value, returning it and
the unconsumed rest.  The fuel is the input length plus one; every recursive
call has consumed at least one character, so it never runs out on real
input. -/
def parseVal : Nat → List Char → Option (JVal × List Char)
  | 0, _ => none
  | fuel + 1, l =>
    match skipJsonWs l with
    | [] => none
    | c :: rest =>
      if c = '"' then
        match parseStringBody (rest.length + 1) rest with
        | some (s, r) => some (.jstr s, r)
        | none => none
      else if c = '{' then
        match skipJsonWs rest with
        | '}' :: r => some (.jobj [], r)
        | _ => parseObjFields fuel rest []
      else if c = '[' then
        match skipJsonWs rest with
        | ']' :: r => some (.jarr [], r)
        | _ => parseArrItems fuel rest []
      else if c = 't' then
        if rest.take 3 = "rue".toList then some (.jbool true, rest.drop 3) else none
      else if c = 'f' then
        if rest.take 4 = "alse".toList then some (.jbool false, rest.drop 4) else none
      else if c = 'n' then
        if rest.take 3 = "ull".toList then some (.jnull, rest.drop 3) else none
      else
        match parseNumBody (c :: rest) with
        | some (raw, r) => some (.jnum raw, r)
        | none => none
def parseObjFields : Nat → List Char → List (List Char × JVal) →
    Option (JVal × List Char)
  | 0, _, _ => none
  | fuel + 1, l, acc =>
    match skipJsonWs l with
    | '"' :: r =>
      match parseStringBody (r.length + 1) r with
      | none => none
      | some (key, r2) =>
        match skipJsonWs r2 with
        | ':' :: r3 =>
          match parseVal fuel r3 with
          | none => none
          | some (v, r4) =>
            match skipJsonWs r4 with
            | ',' :: r5 => parseObjFields fuel r5 (acc ++ [(key, v)])
            | '}' :: r5 => some (.jobj (acc ++ [(key, v)]), r5)
            | _ => none
        | _ => none
    | _ => none
def parseArrItems : Nat → List Char → List JVal → Option (JVal × List Char)
  | 0, _, _ => none
  | fuel + 1, l, acc =>
    match parseVal fuel l with
    | none => none
    | some (v, r) =>
      match skipJsonWs r with
      | ',' :: r2 => parseArrItems fuel r2 (acc ++ [v])
      | ']' :: r2 => some (.jarr (acc ++ [v]), r2)
      | _ => none
end

/-- `JSON.parse`: one value and nothing but trailing whitespace. -/
def jsonParse (l : List Char) : Option JVal :=
  match parseVal (l.length + 1) l with
  | some (v, rest) => if skipJsonWs rest = [] then some v else none
  | none => none

/-- The greedy regex `content.match(/\x7b[\s\S]*\x7d/)`: the slice from the
first brace through the last closing brace after it, if both exist. -/
def jsonMatchGreedy (content : List Char) : Option (List Char) :=
  match content.dropWhile (fun c => !(c = '{')) with
  | [] => none
  | c :: rest =>
    match ((c :: rest).reverse.dropWhile (fun d => !(d = '}'))).reverse with
    | [] => none
    | m => some m

/-- The five fields `parseResponse` reads off the parsed payload; a `none`
field models an absent key (`parsedContent[field]` is `undefined`). -/
structure ParsedContent where
  answer : Option JVal := none
  sections : Option JVal := none
  keyPoints : Option JVal := none
  implications : Option JVal := none
  confidence : Option JVal := none
deriving DecidableEq

/-- Whether a number literal denotes zero (its mantissa has no non-zero
digit), the only falsy number. -/
def numIsZero (raw : List Char) : Bool :=
  (raw.takeWhile (fun c => !(c = 'e' || c = 'E'))).all
    (fun c => c = '0' || c = '.' || c = '-' || c = '+')

/-- JS falsiness of `parsedContent[field]` (`undefined`, `null`, `''`, `0`,
`false`); objects and arrays (even empty) are truthy. -/
def jsFalsy : Option JVal → Bool
  | none => true
  | some v =>
    match v with
    | .jstr s => s.isEmpty
    | .jnum raw => numIsZero raw
    | .jbool b => !b
    | .jnull => true
    | .jarr _ => false
    | .jobj _ => false

/-- Property read on a parsed object (`JSON.parse` keeps the LAST duplicate
key). -/
def objGet (fields : List (List Char × JVal)) (key : List Char) : Option JVal :=
  fields.reverse.lookup key

/-- The error the outer catch of `parseResponse` rethrows on any failure. -/
def parseFailureMsg : List Char := "Failed to parse Claude response".toList

/-- Reading the five fields off the successfully parsed value. On an object
or an array the property reads yield the stored value or undefined; but the
method is strict-mode class code, so a bare-scalar parse escapes the inner
catch and dies later: on null the very first `parsedContent[field]` read
throws a TypeError, and on a bare string, number, or boolean the reads all
yield undefined, making every required field missing, whereupon the back-fill
assignment `parsedContent.answer = content` on a primitive throws — either
way the outer catch rethrows 'Failed to parse Claude response'. -/
def toParsedContent (v : JVal) : Except (List Char) ParsedContent :=
  match v with
  | .jobj fields =>
    .ok { answer := objGet fields "answer".toList
          sections := objGet fields "sections".toList
          keyPoints := objGet fields "keyPoints".toList
          implications := objGet fields "implications".toList
          confidence := objGet fields "confidence".toList }
  | .jarr _ => .ok {}
  | _ => .error parseFailureMsg

def splitLinesAux (acc : List Char) : List Char → List (List Char)
  | [] => [acc.reverse]
  | c :: rest =>
    if c = '\n' then acc.reverse :: splitLinesAux [] rest
    else splitLinesAux (c :: acc) rest

/-- `content.split('\n')`. -/
def splitLines (l : List Char) : List (List Char) := splitLinesAux [] l

/-- The regex `/^[\-\*\d\.]\s/`: a list-marker character followed by one
whitespace character. -/
def isBulletLine (line : List Char) : Bool :=
  match line with
  | c1 :: c2 :: _ =>
    (c1 = '-' || c1 = '*' || c1 = '.' || isDigitCh c1) && isWs c2
  | _ => false

/-- `point.replace(/^[\-\*\d\.]\s/, '').trim()`. -/
def stripBullet (line : List Char) : List Char :=
  jsTrim (if isBulletLine line then line.drop 2 else line)

/-- The fallback path of `parseResponse` when no JSON could be parsed: key
points from bullet lines, the answer from the remaining lines (or the whole
content), fixed implications, confidence "medium". -/
def fallbackParse (content : List Char) : ParsedContent :=
  let lines := (splitLines content).filter (fun line => !(jsTrim line).isEmpty)
  let bulletPoints := lines.filter isBulletLine
  let keyPoints : List JVal :=
    if bulletPoints.isEmpty then []
    else bulletPoints.map (fun p => JVal.jstr (stripBullet p))
  let answer : List Char :=
    if bulletPoints.isEmpty then content
    else List.intercalate "\n\n".toList (lines.filter (fun line => !isBulletLine line))
  { answer := some (.jstr (if (jsTrim answer).isEmpty then content else jsTrim answer))
    sections := some (.jarr [])
    keyPoints := some (.jarr (keyPoints.take 5))
    implications := some (.jstr "Based on the analysis provided above.".toList)
    confidence := some (.jstr "medium".toList) }

/-- The parsing phase of `parseResponse` (before field validation): try the
greedy brace slice, else the whole text, as JSON; if the JSON parse fails
take the fallback path, and if it succeeds with a bare scalar the field reads
or back-fill assignments throw (see `toParsedContent`). -/
def preParse (content : List Char) : Except (List Char) ParsedContent :=
  match (match jsonMatchGreedy content with
         | some m => jsonParse m
         | none => jsonParse content) with
  | some v => toParsedContent v
  | none => .ok (fallbackParse content)

/-- The required-field validation of `parseResponse`: when at least one of the
four required fields is falsy, every falsy field (confidence included) is
back-filled; otherwise the record is returned untouched — in particular a
falsy/absent confidence is NOT back-filled then. -/
def validateFields (content : List Char) (pc : ParsedContent) : ParsedContent :=
  if jsFalsy pc.answer || jsFalsy pc.sections || jsFalsy pc.keyPoints ||
      jsFalsy pc.implications then
    { answer := if jsFalsy pc.answer then some (.jstr content) else pc.answer
      sections := if jsFalsy pc.sections then some (.jarr []) else pc.sections
      keyPoints := if jsFalsy pc.keyPoints then some (.jarr []) else pc.keyPoints
      implications :=
        if jsFalsy pc.implications then
          some (.jstr "See full response for implications".toList)
        else pc.implications
      confidence :=
        if jsFalsy pc.confidence then some (.jstr "medium".toList) else pc.confidence }
  else pc

/-- `parseResponse` from `llmService.js`, from the point where the reply's
text block `content` is in hand (the surrounding code only locates that block
and attaches request metadata); the error arm is the rethrow of the outer
catch. -/
def parseResponse (content : List Char) : Except (List Char) ParsedContent :=
  match preParse content with
  | .ok pc => .ok (validateFields content pc)
  | .error e => .error e

/-- Raw model text embedding a brace-delimited payload carrying all five
fields (the spec's fully-populated example). -/
def c4FullExample : List Char :=
  "Here is info: \x7b\x22answer\x22:\x22x\x22,\x22sections\x22:[\x22S1\x22],\x22keyPoints\x22:[\x22p1\x22],\x22implications\x22:\x22i\x22,\x22confidence\x22:\x22high\x22\x7d".toList

/-- The same payload with the four required fields present and truthy but NO
confidence key. -/
def c4NoConfidence : List Char :=
  "Here is info: \x7b\x22answer\x22:\x22x\x22,\x22sections\x22:[\x22S1\x22],\x22keyPoints\x22:[\x22p1\x22],\x22implications\x22:\x22i\x22\x7d".toList

/-- Raw model text with no brace-delimited block and two bullet lines (the
spec's fallback example). -/
def c4FallbackExample : List Char :=
  "No structured data here\n- point one\n- point two".toList

/-- Raw model text that parses as a bare JSON scalar: no brace-delimited
block, and `JSON.parse('42')` succeeds with the number 42. -/
def c4ScalarExample : List Char := "42".toList

/-- A field that survives the back-fill branch is populated: the branch
replaces every falsy field (absent ones included) by a `some` default and
keeps non-falsy, hence present, fields. -/
theorem backfill_ne_none (d : JVal) (x : Option JVal) :
    (if jsFalsy x = true then some d else x) ≠ none := by
  cases hx : jsFalsy x with
  | true => simp [hx]
  | false =>
    rw [if_neg (by simp : ¬ (false = true))]
    intro he
    subst he
    simp [jsFalsy] at hx

/-- A non-falsy field is present (`jsFalsy none = true`). -/
theorem jsFalsy_false_ne_none (x : Option JVal) (h : jsFalsy x = false) :
    x ≠ none := by
  intro he
  subst he
  simp [jsFalsy] at h

/-- C4 counterexample: a successfully parsed brace-delimited payload carrying
all four required fields but no confidence key comes back with confidence
still absent. The back-fill block only runs when one of the four REQUIRED
fields is falsy, so confidence is never defaulted on its own and the returned
structure is partial, contradicting "all five fields populated, never a
partial one". -/
theorem parseResponse_partial_counterexample :
    (parseResponse c4NoConfidence).map (fun pc => pc.confidence) =
      Except.ok none := rfl

/-- C4 (amended): whenever the pre-validation parse returns a record (a parsed
object or array, or the fallback path), `parseResponse` returns it validated,
with the four REQUIRED fields (answer, sections, keyPoints, implications)
populated; confidence is populated whenever some required field of that
record was falsy (the back-fill branch) and otherwise is passed through
unchanged — possibly absent. When the pre-validation parse throws (raw text
parsing as a bare JSON scalar, e.g. "42"), `parseResponse` throws rather than
returning any structure. On the spec's fully-populated payload example all
five fields come back as given, and on the bullet-line fallback example
keyPoints are the stripped bullet lines and confidence is "medium". -/
theorem parseResponse_complete (content : List Char) :
    (∀ pc0, preParse content = .ok pc0 →
      parseResponse content = .ok (validateFields content pc0) ∧
      ((validateFields content pc0).answer ≠ none ∧
        (validateFields content pc0).sections ≠ none ∧
        (validateFields content pc0).keyPoints ≠ none ∧
        (validateFields content pc0).implications ≠ none) ∧
      ((jsFalsy pc0.answer || jsFalsy pc0.sections || jsFalsy pc0.keyPoints ||
          jsFalsy pc0.implications) = true →
        (validateFields content pc0).confidence ≠ none) ∧
      ((jsFalsy pc0.answer || jsFalsy pc0.sections || jsFalsy pc0.keyPoints ||
          jsFalsy pc0.implications) = false →
        (validateFields content pc0).confidence = pc0.confidence)) ∧
    (∀ e, preParse content = .error e → parseResponse content = .error e) ∧
    parseResponse c4FullExample =
      .ok { answer := some (.jstr "x".toList),
            sections := some (.jarr [.jstr "S1".toList]),
            keyPoints := some (.jarr [.jstr "p1".toList]),
            implications := some (.jstr "i".toList),
            confidence := some (.jstr "high".toList) } ∧
    (parseResponse c4FallbackExample).map (fun pc => pc.keyPoints) =
      .ok (some (.jarr [.jstr "point one".toList, .jstr "point two".toList])) ∧
    (parseResponse c4FallbackExample).map (fun pc => pc.confidence) =
      .ok (some (.jstr "medium".toList)) ∧
    parseResponse c4ScalarExample = .error parseFailureMsg := by
  refine ⟨?_, ?_, rfl, rfl, rfl, rfl⟩
  · intro pc0 h0
    refine ⟨by simp [parseResponse, h0], ?_, ?_, ?_⟩
    · cases hb : (jsFalsy pc0.answer || jsFalsy pc0.sections ||
          jsFalsy pc0.keyPoints || jsFalsy pc0.implications) with
      | true =>
        unfold validateFields
        rw [if_pos hb]
        exact ⟨backfill_ne_none _ _, backfill_ne_none _ _, backfill_ne_none _ _,
          backfill_ne_none _ _⟩
      | false =>
        unfold validateFields
        rw [if_neg (by simp [hb])]
        have h4 := hb
        simp only [Bool.or_eq_false_iff] at h4
        exact ⟨jsFalsy_false_ne_none _ h4.1.1.1, jsFalsy_false_ne_none _ h4.1.1.2,
          jsFalsy_false_ne_none _ h4.1.2, jsFalsy_false_ne_none _ h4.2⟩
    · intro hb
      unfold validateFields
      rw [if_pos hb]
      exact backfill_ne_none _ _
    · intro hb
      unfold validateFields
      rw [if_neg (by simp [hb])]
  · intro e he
    simp [parseResponse, he]

/-- The record the pre-validation parse produces on the fallback example (its
error arm is unreachable there). -/
def c4FallbackPre : ParsedContent :=
  match preParse c4FallbackExample with
  | .ok pc => pc
  | .error _ => {}

/-- C4 witness: the amended theorem at the fallback example, where the
pre-validation parse returns a record with every required field truthy, so
the ok-hypothesis and the confidence pass-through hypothesis are both
dischargeable concretely. -/
theorem parseResponse_complete_witness :
    parseResponse c4FallbackExample =
        .ok (validateFields c4FallbackExample c4FallbackPre) ∧
      (validateFields c4FallbackExample c4FallbackPre).confidence =
        c4FallbackPre.confidence :=
  ⟨((parseResponse_complete c4FallbackExample).1 c4FallbackPre rfl).1,
    ((parseResponse_complete c4FallbackExample).1 c4FallbackPre rfl).2.2.2 rfl⟩

end LLMService
